import Mathlib

/-!
Verification of the opmsg persona keystore (`keystore.cc`).

The development shallowly embeds the keystore: strings are `List Char`,
the filesystem is an explicit structure of directories and files, and the
external cryptographic provider (OpenSSL) is an abstract `Crypto` record of
oracle functions.  Every definition is translated from `keystore.cc`;
the few entities living outside that file (`is_hex_hash`, the marker
constants) are modelled from the specification and say so in their doc
comments.
-/

namespace Opmsg

/-- Characters of a string literal, the byte-string model used throughout. -/
abbrev Chars := List Char

/-- First index at which `pat` occurs in `s` (C++ `std::string::find`).
`none` when there is no occurrence.  An empty pattern matches at 0. -/
def firstOcc (pat : Chars) : Chars → Option Nat
  | [] => if pat.isPrefixOf [] then some 0 else none
  | c :: t => if pat.isPrefixOf (c :: t) then some 0 else (firstOcc pat t).map (· + 1)

/-- `pat` occurs in `s` at index `i`. -/
def OccursAt (pat s : Chars) (i : Nat) : Prop := (s.drop i).take pat.length = pat

instance (pat s : Chars) (i : Nat) : Decidable (OccursAt pat s i) := by
  unfold OccursAt; infer_instance

/-- Modelled from the spec: the public-key BEGIN marker `marker::pub_begin`
(`marker.h` is not under `src/`; §4.2 of the spec quotes the literal). -/
def pub_begin : Chars := ("-----BEGIN PUBLIC KEY-----").data

/-- Modelled from the spec: the public-key END marker `marker::pub_end`
(`marker.h` is not under `src/`; the standard PEM END frame of §4.2). -/
def pub_end : Chars := ("-----END PUBLIC KEY-----").data

/-- The canonicalization at the heart of `normalize_and_hexhash`
(`keystore.cc` lines 105-128): find the first BEGIN marker (fail if absent),
drop everything before it, fail if the BEGIN marker occurs again at offset
`pub_begin.size()` or later, find the first END marker (fail if absent),
truncate after it and append one newline. -/
def normalizePem (s : Chars) : Option Chars :=
  match firstOcc pub_begin s with
  | none => none
  | some start =>
    let s1 := s.drop start
    match firstOcc pub_begin (s1.drop pub_begin.length) with
    | some _ => none
    | none =>
      match firstOcc pub_end s1 with
      | none => none
      | some e => some (s1.take (e + pub_end.length) ++ ['\n'])

/-- `normalize_and_hexhash` (`keystore.cc` lines 105-144): canonicalize the
PEM blob, then digest the canonical bytes and render them as lowercase hex.
The digest + `blob2hex` pipeline is the abstract oracle `md`.  Returns the
normalized string (the C++ mutates `s` in place) and the hex digest. -/
def normalize_and_hexhash (md : Chars → Chars) (s : Chars) : Option (Chars × Chars) :=
  (normalizePem s).map (fun c => (c, md c))

/-- A well-formed single-key PEM blob used as concrete test input. -/
def pemClean : Chars :=
  ("-----BEGIN PUBLIC KEY-----\nMFkwEwYHKoZIzj0CAQ==\n-----END PUBLIC KEY-----").data

/-- Its canonical form: the blob itself plus one newline. -/
def pemCanon : Chars := pemClean ++ ['\n']

/-- A blob whose BEGIN and END markers overlap: the five trailing dashes of
the BEGIN marker double as the five leading dashes of the END marker. -/
def pemOverlap : Chars := ("-----BEGIN PUBLIC KEY-----END PUBLIC KEY-----").data

/-- A BEGIN marker missing its five trailing dashes; gluing it onto
`pemOverlap` makes the two BEGIN occurrences overlap at distance 21. -/
def garbOverlap : Chars := ("-----BEGIN PUBLIC KEY").data

/-- `garbOverlap ++ pemOverlap`: contains the BEGIN marker at offsets 0 and
21, yet the duplicate-key check of `normalize_and_hexhash` only searches
from offset `pub_begin.size()` = 26 onward and misses the second one. -/
def pemDouble : Chars := garbOverlap ++ pemOverlap

/-- Error kinds surfaced by the keystore (spec §7); the C++ returns
`-1`/`nullptr` with a diagnostic string built by `build_error`. -/
inductive Err where
  | invalidId | malformed | unsupported | mismatch | notFound
  | conflict | precondFailed | ioError | cryptoError
deriving DecidableEq, Repr

/-- Introspected key type of a parsed PEM (`EVP_PKEY_type`). -/
inductive KeyType where
  | rsa | ec | dh | other
deriving DecidableEq, Repr

/-- Persona type marker (`marker::rsa` / `marker::ec` / `marker::unknown`). -/
inductive PType where
  | rsa | ec | unknown
deriving DecidableEq, Repr

/-- Modelled from the spec: `is_hex_hash` lives in `misc.cc`, outside `src/`.
Spec §6: hex identifiers are lowercase hex strings of even length, at least
the 16-character short form. -/
def is_hex_hash (s : Chars) : Bool :=
  decide (16 ≤ s.length) && decide (s.length % 2 = 0) &&
    s.all (fun c => (('0' ≤ c && c ≤ '9') || ('a' ≤ c && c ≤ 'f')))

/-- Modelled from the spec: the reserved sentinel `marker::rsa_kex_id`
(`marker.h` is not under `src/`).  Spec §6 calls the sentinels fixed
hex-like tokens that pass the hex validator and never name real storage. -/
def rsa_kex_id : Chars := (String.mk (List.replicate 32 '0')).data

/-- Modelled from the spec: the reserved sentinel `marker::ec_kex_id`,
a second fixed hex-like token distinct from `rsa_kex_id`. -/
def ec_kex_id : Chars := (String.mk (List.replicate 32 '1')).data

deriving instance DecidableEq for Except

/-- Association-list lookup, the model of `std::map::find`. -/
def mapFind? {α : Type} : List (Chars × α) → Chars → Option α
  | [], _ => none
  | (k, v) :: t, key => if key = k then some v else mapFind? t key

/-- Lexicographic byte order on keys, the model of `std::string` ordering
that determines `std::map` iteration order. -/
def ltChars : Chars → Chars → Bool
  | [], [] => false
  | [], _ :: _ => true
  | _ :: _, [] => false
  | a :: as, b :: bs => if a < b then true else if b < a then false else ltChars as bs

/-- Ordered insert-or-replace, the model of `std::map::operator[]=`:
keeps the association list sorted by key as `std::map` iteration is. -/
def mapInsert {α : Type} (k : Chars) (v : α) : List (Chars × α) → List (Chars × α)
  | [] => [(k, v)]
  | (k2, v2) :: t =>
    if k = k2 then (k, v) :: t
    else if ltChars k k2 then (k, v) :: (k2, v2) :: t
    else (k2, v2) :: mapInsert k v t

/-- Key removal, the model of `std::map::erase`. -/
def mapErase {α : Type} (k : Chars) : List (Chars × α) → List (Chars × α)
  | [] => []
  | (k2, v2) :: t => if k2 = k then mapErase k t else (k2, v2) :: mapErase k t

/-- Path concatenation with a slash, as `base + "/" + name` in the C++. -/
def pjoin (a b : Chars) : Chars := a ++ '/' :: b

/-- The filesystem state: a set of directories and a map from file paths
to file contents, both under flat slash-separated paths. -/
structure FS where
  dirs : List Chars
  files : List (Chars × Chars)
deriving DecidableEq, Repr

/-- Directory existence. -/
def FS.hasDir (fs : FS) (p : Chars) : Bool := fs.dirs.contains p

/-- Read a whole file (`fopen` + `fread`). -/
def FS.readFile (fs : FS) (p : Chars) : Option Chars := mapFind? fs.files p

/-- File existence. -/
def FS.hasFile (fs : FS) (p : Chars) : Bool := (fs.readFile p).isSome

/-- `stat()` success: the path exists as a file or as a directory. -/
def FS.stat (fs : FS) (p : Chars) : Bool := fs.hasFile p || fs.hasDir p

/-- Create or overwrite a file (`open(O_CREAT|O_RDWR|O_TRUNC)` + `write`). -/
def FS.setFile (fs : FS) (p content : Chars) : FS :=
  { fs with files := mapInsert p content fs.files }

/-- Exclusive creation (`open(O_CREAT|O_RDWR|O_EXCL)` + `write`): fails if
the path already exists. -/
def FS.writeNew (fs : FS) (p content : Chars) : Option FS :=
  if fs.stat p then none else some (fs.setFile p content)

/-- `unlink`: drop the file; silently a no-op when it does not exist. -/
def FS.unlink (fs : FS) (p : Chars) : FS :=
  { fs with files := mapErase p fs.files }

/-- `q` lies strictly below directory `d`. -/
def isUnder (d q : Chars) : Bool := (d ++ ['/']).isPrefixOf q

/-- The directory has at least one entry (file or subdirectory). -/
def FS.hasChild (fs : FS) (d : Chars) : Bool :=
  fs.files.any (fun e => isUnder d e.1) || fs.dirs.any (fun q => isUnder d q)

/-- List-remove of a directory name. -/
def listRemove (d : Chars) : List Chars → List Chars
  | [] => []
  | q :: t => if q = d then listRemove d t else q :: listRemove d t

/-- `rmdir`: removes the directory only when it is empty; the C++ call
site ignores the failure, so the state is returned unchanged then. -/
def FS.rmdir (fs : FS) (d : Chars) : FS :=
  if fs.hasChild d then fs else { fs with dirs := listRemove d fs.dirs }

/-- `rmdir` with its return status, for `del_dh_id` which returns it. -/
def FS.rmdirChecked (fs : FS) (d : Chars) : Bool × FS :=
  if fs.hasChild d || !fs.hasDir d then (false, fs)
  else (true, { fs with dirs := listRemove d fs.dirs })

/-- `mkdir(p, 0700)`: fails when the path already exists. -/
def FS.mkdir (fs : FS) (p : Chars) : Option FS :=
  if fs.stat p then none else some { fs with dirs := p :: fs.dirs }

/-- Reparent one path for a directory rename. -/
def replacePath (src dst q : Chars) : Chars :=
  if q = src then dst else if isUnder src q then dst ++ q.drop src.length else q

/-- `rename(src, dst)` of a directory: fails when `src` is not a directory
or `dst` already exists; otherwise atomically reparents `src` and
everything below it. -/
def FS.rename (fs : FS) (src dst : Chars) : Option FS :=
  if !fs.hasDir src || fs.stat dst then none
  else some { dirs := fs.dirs.map (replacePath src dst),
              files := fs.files.map (fun e => (replacePath src dst e.1, e.2)) }

/-- Name of `q` as a direct child of directory `d`, if it is one. -/
def childName (d q : Chars) : Option Chars :=
  if isUnder d q then
    let r := q.drop (d.length + 1)
    if r.contains '/' then none else some r
  else none

/-- `readdir` enumeration of the entries of a directory. -/
def FS.entries (fs : FS) (d : Chars) : List Chars :=
  fs.dirs.filterMap (childName d) ++ fs.files.filterMap (fun e => childName d e.1)

/-- `fgets` of the first line (up to 511 bytes) with the trailing newline
stripped, as the `name`/`srclink`/`peer` readers do. -/
def firstLine (content : Chars) : Chars :=
  (content.take 511).takeWhile (fun c => c != '\n')

/-- The abstract cryptographic provider (OpenSSL), out of scope per spec §1.
`md` is the digest-to-lowercase-hex pipeline (`EVP_Digest*` + `blob2hex`),
the parsers model `PEM_read_*` plus `EVP_PKEY_type` introspection, and the
generators model fresh-key creation; `none`/`false` is failure. -/
structure Crypto where
  md : Chars → Chars
  parsePub : Chars → Option KeyType
  parsePriv : Chars → Option KeyType
  parseDHparams : Chars → Bool
  dhPubBytes : Chars → Option Chars
  genEC : Option (Chars × Chars)
  genDH : Option (Chars × Chars × Chars)
  genDHparams : Option Chars

/-- `PKEYbox`: optional public/private key handles (modelled by their
introspected type), the PEM strings, the derived hex id and peer id. -/
structure PKEYbox where
  pub : Option KeyType
  priv : Option KeyType
  pub_pem : Chars
  priv_pem : Chars
  hex : Chars
  peer_id : Chars
deriving DecidableEq, Repr

/-- An empty `PKEYbox(nullptr, nullptr)` with the given hex id. -/
def PKEYbox.empty (hex : Chars) : PKEYbox :=
  { pub := none, priv := none, pub_pem := [], priv_pem := [], hex := hex, peer_id := [] }

/-- `DHbox`: the DH-parameters handle with its PEM string (empty when the
params were loaded from disk, where the C++ leaves `pub_pem` unset). -/
structure DHbox where
  pem : Chars
deriving DecidableEq, Repr

/-- The `persona` object of `keystore.h`: one identity rooted at
`<cfgbase>/<id>` with its long-term keypair, optional DH parameters and
the map of ephemeral kex keys. -/
structure persona where
  cfgbase : Chars
  id : Chars
  name : Chars
  link_src : Chars
  ptype : PType
  pkey : Option PKEYbox
  dh_params : Option DHbox
  keys : List (Chars × PKEYbox)
deriving DecidableEq, Repr

/-- The `persona(cfgbase, hex, name)` constructor: no I/O, unknown type. -/
def persona.fresh (cfgbase hex name : Chars) : persona :=
  { cfgbase := cfgbase, id := hex, name := name, link_src := [],
    ptype := PType.unknown, pkey := none, dh_params := none, keys := [] }

/-- The `keystore` object: the base directory and the persona map. -/
structure keystore where
  cfgbase : Chars
  personas : List (Chars × persona)
deriving DecidableEq, Repr

/-- The path `<cfgbase>/<id>/<hex>/dh.priv.pem` of a kex private key. -/
def dhPrivPath (p : persona) (hex : Chars) : Chars :=
  pjoin (pjoin (pjoin p.cfgbase p.id) hex) (("dh.priv.pem").data)

/-- The path `<cfgbase>/<id>/<hex>/dh.pub.pem` of a kex public key. -/
def dhPubPath (p : persona) (hex : Chars) : Chars :=
  pjoin (pjoin (pjoin p.cfgbase p.id) hex) (("dh.pub.pem").data)

/-- The path `<cfgbase>/<id>/<hex>/used` of the used-marker file. -/
def usedPath (p : persona) (hex : Chars) : Chars :=
  pjoin (pjoin (pjoin p.cfgbase p.id) hex) (("used").data)

/-- The path `<cfgbase>/<id>/<hex>/peer` of the peer file. -/
def peerPath (p : persona) (hex : Chars) : Chars :=
  pjoin (pjoin (pjoin p.cfgbase p.id) hex) (("peer").data)

/-- `mkdir_helper` (`keystore.cc` lines 53-70): create the staging directory
`<base>/<unique>` with mode 0700.  The unique component (seconds, micro-
seconds, pid) is an input of the model. -/
def mkdir_helper (fs : FS) (base unique : Chars) : Option (Chars × FS) :=
  let file := pjoin base unique
  match fs.mkdir file with
  | none => none
  | some fs1 => some (file, fs1)

/-- The `"rsa"`/`"ec"`/`"unknown"` marker string of a persona type. -/
def PType.str : PType → Chars
  | PType.rsa => ("rsa").data
  | PType.ec => ("ec").data
  | PType.unknown => ("unknown").data

/-- The marker string for a parsed key type as `add_persona` computes it
(`keystore.cc` lines 408-413): `some` only for EC and RSA keys. -/
def keyTypeMarker : KeyType → Option Chars
  | KeyType.ec => some (("ec").data)
  | KeyType.rsa => some (("rsa").data)
  | _ => none

/-- `persona::find_dh_key` (`keystore.cc` lines 502-512): the EC sentinel
redirects to the long-term key; everything else is a map lookup. -/
def persona.find_dh_key (p : persona) (hex : Chars) : Except Err (Option PKEYbox) :=
  if hex = ec_kex_id ∧ p.ptype = PType.ec then Except.ok p.pkey
  else
    match mapFind? p.keys hex with
    | none => Except.error Err.notFound
    | some box => Except.ok (some box)

/-- `persona::used_key` (`keystore.cc` lines 1031-1043): maintain the empty
`used` marker file; invalid ids and sentinels are silently ignored. -/
def persona.used_key (p : persona) (fs : FS) (hexid : Chars) (u : Bool) : FS :=
  if is_hex_hash hexid = false then fs
  else if hexid = rsa_kex_id ∨ hexid = ec_kex_id then fs
  else
    let file := pjoin (pjoin (pjoin p.cfgbase p.id) hexid) (("used").data)
    if u = false then fs.unlink file
    else match fs.writeNew file [] with
      | none => fs
      | some fs1 => fs1

/-- `persona::del_dh_id` (`keystore.cc` lines 1117-1130): drop the kex key
from the map and `rmdir` its directory; sentinels are inert. -/
def persona.del_dh_id (p : persona) (fs : FS) (hex : Chars) :
    Except Err Unit × persona × FS :=
  if is_hex_hash hex = false then (Except.error Err.invalidId, p, fs)
  else if hex = rsa_kex_id ∨ hex = ec_kex_id then (Except.ok (), p, fs)
  else
    let dir := pjoin (pjoin p.cfgbase p.id) hex
    let p2 : persona := { p with keys := mapErase hex p.keys }
    match fs.rmdirChecked dir with
    | (true, fs2) => (Except.ok (), p2, fs2)
    | (false, fs2) => (Except.error Err.ioError, p2, fs2)

/-- The zero blocks `del_dh_priv` writes over a file of length `n`:
whole 512-byte blocks of `\0`, one `sync()` per block, until `n` is
covered. -/
def shredContent (n : Nat) : Chars :=
  List.replicate (512 * ((n + 511) / 512)) (Char.ofNat 0)

/-- `persona::del_dh_priv` (`keystore.cc` lines 1133-1173): sentinels are
inert; fail when `dh.priv.pem` is absent; otherwise overwrite it with zero
blocks, unlink it together with the `used` and `peer` files, and clear the
private half of the in-memory KeyBox. -/
def persona.del_dh_priv (p : persona) (fs : FS) (hex : Chars) :
    Except Err Unit × persona × FS :=
  if is_hex_hash hex = false then (Except.error Err.invalidId, p, fs)
  else if hex = rsa_kex_id ∨ hex = ec_kex_id then (Except.ok (), p, fs)
  else
    let dir := pjoin (pjoin p.cfgbase p.id) hex
    let file := pjoin dir (("dh.priv.pem").data)
    let used := pjoin dir (("used").data)
    let peer := pjoin dir (("peer").data)
    match fs.readFile file with
    | none => (Except.error Err.notFound, p, fs)
    | some content =>
      let fs1 := fs.setFile file (shredContent content.length)
      let fs2 := ((fs1.unlink file).unlink used).unlink peer
      let p2 : persona :=
        match mapFind? p.keys hex with
        | none => p
        | some box =>
          { p with keys := mapInsert hex { box with priv_pem := [], priv := none } p.keys }
      (Except.ok (), p2, fs2)

/-- `persona::del_dh_pub` (`keystore.cc` lines 1177-1192): unlink
`dh.pub.pem` and clear the public half; sentinels are inert; private half
and directory are retained. -/
def persona.del_dh_pub (p : persona) (fs : FS) (hex : Chars) :
    Except Err Unit × persona × FS :=
  if is_hex_hash hex = false then (Except.error Err.invalidId, p, fs)
  else if hex = rsa_kex_id ∨ hex = ec_kex_id then (Except.ok (), p, fs)
  else
    let file := pjoin (pjoin (pjoin p.cfgbase p.id) hex) (("dh.pub.pem").data)
    let fs1 := fs.unlink file
    let p2 : persona :=
      match mapFind? p.keys hex with
      | none => p
      | some box =>
        { p with keys := mapInsert hex { box with pub_pem := [], pub := none } p.keys }
    (Except.ok (), p2, fs1)

/-- The public-half phase of `persona::load_dh` (`keystore.cc` lines
558-571): tolerant `do/while(0)` that attaches the public key only when the
file exists, is non-empty and parses. -/
def loadDhPub (C : Crypto) (fs : FS) (dir : Chars) : Option (KeyType × Chars) :=
  match fs.readFile (pjoin dir (("dh.pub.pem").data)) with
  | none => none
  | some content =>
    if content.length = 0 then none
    else match C.parsePub content with
      | none => none
      | some t => some (t, content.take 8192)

/-- The KeyBox built by the public-half phase of `persona::load_dh` before
the private half is processed: public handle and PEM attached only when the
pub file read and parse succeeded, private half always still empty. -/
def loadDhPubBox (C : Crypto) (fs : FS) (dir hex : Chars) : PKEYbox :=
  match loadDhPub C fs dir with
  | none => PKEYbox.empty hex
  | some (t, pem) => { PKEYbox.empty hex with pub := some t, pub_pem := pem }

/-- The `peer`-file phase of `persona::load_dh` (`keystore.cc` lines
602-617): record the peer id when the file holds a valid hex first line. -/
def loadDhPeer (fs : FS) (dir hex : Chars) (keys : List (Chars × PKEYbox)) :
    List (Chars × PKEYbox) :=
  match fs.readFile (pjoin dir (("peer").data)) with
  | none => keys
  | some content =>
    let peer := firstLine content
    if is_hex_hash peer then
      match mapFind? keys hex with
      | none => keys
      | some box => mapInsert hex { box with peer_id := peer } keys
    else keys

/-- `persona::load_dh` (`keystore.cc` lines 541-621): insert a KeyBox with
whatever public half could be read, then load the private half strictly
(an existing but empty or unparsable `dh.priv.pem` is an error that leaves
the already-inserted KeyBox in the map), erase the box again when neither
half existed, and finally record any designated peer. -/
def persona.load_dh (C : Crypto) (p : persona) (fs : FS) (hex : Chars) :
    Except Err Unit × persona :=
  if is_hex_hash hex = false then (Except.error Err.invalidId, p)
  else
    let dir := pjoin (pjoin p.cfgbase p.id) hex
    let pubRes := loadDhPub C fs dir
    let pbox : PKEYbox := loadDhPubBox C fs dir hex
    let keys1 := mapInsert hex pbox p.keys
    match fs.readFile (pjoin dir (("dh.priv.pem").data)) with
    | some content =>
      if content.length = 0 then (Except.error Err.malformed, { p with keys := keys1 })
      else
        match C.parsePriv content with
        | none => (Except.error Err.malformed, { p with keys := keys1 })
        | some t =>
          let keys2 :=
            mapInsert hex { pbox with priv := some t, priv_pem := content.take 8192 } keys1
          (Except.ok (), { p with keys := loadDhPeer fs dir hex keys2 })
    | none =>
      if pubRes.isSome then (Except.ok (), { p with keys := loadDhPeer fs dir hex keys1 })
      else (Except.ok (), { p with keys := mapErase hex keys1 })

/-- `persona::check_type` (`keystore.cc` lines 625-645): probe
`rsa.pub.pem` then `ec.pub.pem`. -/
def persona.check_type (p : persona) (fs : FS) : Except Err Unit × persona :=
  if is_hex_hash p.id = false then (Except.error Err.invalidId, p)
  else
    let dir := pjoin p.cfgbase p.id
    if fs.stat (pjoin dir (("rsa.pub.pem").data)) then
      (Except.ok (), { p with ptype := PType.rsa })
    else if fs.stat (pjoin dir (("ec.pub.pem").data)) then
      (Except.ok (), { p with ptype := PType.ec })
    else (Except.error Err.notFound, p)

/-- `persona::load` (`keystore.cc` lines 648-771): validate ids, determine
the type, read `name`/`srclink`, load the long-term keypair (public half
mandatory), optional DH params for RSA, then either load one designated kex
key (sentinels load none) or enumerate all hex-named entries, tolerating
individual kex failures. -/
def persona.load (C : Crypto) (p : persona) (fs : FS) (dh_hex : Chars) :
    Except Err Unit × persona :=
  if is_hex_hash p.id = false then (Except.error Err.invalidId, p)
  else if 0 < dh_hex.length ∧ is_hex_hash dh_hex = false then
    (Except.error Err.invalidId, p)
  else
    match (if p.ptype = PType.unknown then p.check_type fs else (Except.ok (), p)) with
    | (Except.error e, p1) => (Except.error e, p1)
    | (Except.ok _, p1) =>
      let dir := pjoin p1.cfgbase p1.id
      let p2 : persona :=
        match fs.readFile (pjoin dir (("name").data)) with
        | none => p1
        | some c => { p1 with name := firstLine c }
      let p3 : persona :=
        match fs.readFile (pjoin dir (("srclink").data)) with
        | none => p2
        | some c => { p2 with link_src := firstLine c }
      match fs.readFile (pjoin dir (p3.ptype.str ++ (".pub.pem").data)) with
      | none => (Except.error Err.notFound, p3)
      | some pubc =>
        match C.parsePub pubc with
        | none => (Except.error Err.malformed, p3)
        | some tpub =>
          if pubc.length = 0 then (Except.error Err.ioError, p3)
          else
            let privRes : Except Err (Option (KeyType × Chars)) :=
              match fs.readFile (pjoin dir (p3.ptype.str ++ (".priv.pem").data)) with
              | none => Except.ok none
              | some privc =>
                match C.parsePriv privc with
                | none => Except.error Err.malformed
                | some tpriv =>
                  if privc.length = 0 then Except.error Err.ioError
                  else Except.ok (some (tpriv, privc.take 8192))
            match privRes with
            | Except.error e => (Except.error e, p3)
            | Except.ok privOpt =>
              let pk : PKEYbox :=
                { pub := some tpub, priv := privOpt.map Prod.fst,
                  pub_pem := pubc.take 8192,
                  priv_pem := match privOpt with | none => [] | some pr => pr.2,
                  hex := [], peer_id := [] }
              let p4 : persona := { p3 with pkey := some pk }
              let dhRes : Except Err (Option DHbox) :=
                if p4.ptype = PType.rsa then
                  match fs.readFile (pjoin dir (("dhparams.pem").data)) with
                  | none => Except.ok none
                  | some dhc =>
                    if C.parseDHparams dhc then Except.ok (some { pem := [] })
                    else Except.error Err.malformed
                else Except.ok none
              match dhRes with
              | Except.error e => (Except.error e, p4)
              | Except.ok dhOpt =>
                let p5 : persona :=
                  match dhOpt with
                  | none => p4
                  | some b => { p4 with dh_params := some b }
                if 0 < dh_hex.length then
                  if dh_hex = rsa_kex_id ∨ dh_hex = ec_kex_id then (Except.ok (), p5)
                  else persona.load_dh C p5 fs dh_hex
                else if fs.hasDir dir = false then (Except.error Err.ioError, p5)
                else
                  let p6 := (fs.entries dir).foldl
                    (fun acc n =>
                      if is_hex_hash n then (persona.load_dh C acc fs n).2 else acc) p5
                  (Except.ok (), p6)

/-- `persona::new_dh_params(pem)` (`keystore.cc` lines 784-814): truncate-
write `dhparams.pem`, then parse the written PEM back as verification. -/
def persona.new_dh_params (C : Crypto) (p : persona) (fs : FS) (pem : Chars) :
    Except Err DHbox × persona × FS :=
  let file := pjoin (pjoin p.cfgbase p.id) (("dhparams.pem").data)
  let fs1 := fs.setFile file pem
  if C.parseDHparams pem then
    let box : DHbox := { pem := pem }
    (Except.ok box, { p with dh_params := some box }, fs1)
  else (Except.error Err.malformed, p, fs1)

/-- `persona::new_dh_params()` (`keystore.cc` lines 817-872): generate fresh
parameters, truncate-write them to `dhparams.pem` and read them back. -/
def persona.new_dh_params_fresh (C : Crypto) (p : persona) (fs : FS) :
    Except Err DHbox × persona × FS :=
  match C.genDHparams with
  | none => (Except.error Err.cryptoError, p, fs)
  | some pem =>
    let file := pjoin (pjoin p.cfgbase p.id) (("dhparams.pem").data)
    let fs1 := fs.setFile file pem
    if pem.length = 0 then (Except.error Err.cryptoError, p, fs1)
    else
      let box : DHbox := { pem := pem.take 8192 }
      (Except.ok box, { p with dh_params := some box }, fs1)

/-- `persona::gen_kex_key` (`keystore.cc` lines 882-977): generate an EC or
DH ephemeral keypair, derive its hex, return the existing KeyBox when the
hex is already mapped, otherwise stage `dh.pub.pem`, `dh.priv.pem` and an
optional non-fatal `peer` file, then publish by rename; a pre-existing
target or failing rename triggers staging cleanup and a conflict error. -/
def persona.gen_kex_key (C : Crypto) (p : persona) (fs : FS) (peer tmpname : Chars) :
    Except Err PKEYbox × persona × FS :=
  let genRes : Except Err (Chars × Chars × Chars) :=
    if p.ptype = PType.ec then
      match C.genEC with
      | none => Except.error Err.cryptoError
      | some (pub, priv) =>
        match normalize_and_hexhash C.md pub with
        | none => Except.error Err.malformed
        | some (pem2, hex) => Except.ok (pem2, priv, hex)
    else
      match p.dh_params with
      | none => Except.error Err.precondFailed
      | some _ =>
        match C.genDH with
        | none => Except.error Err.cryptoError
        | some (pub, priv, bnbytes) => Except.ok (pub, priv, C.md bnbytes)
  match genRes with
  | Except.error e => (Except.error e, p, fs)
  | Except.ok (pub_pem, priv_pem, hex) =>
    match mapFind? p.keys hex with
    | some box => (Except.ok box, p, fs)
    | none =>
      match C.parsePub pub_pem with
      | none => (Except.error Err.malformed, p, fs)
      | some tpub =>
        match C.parsePriv priv_pem with
        | none => (Except.error Err.malformed, p, fs)
        | some tpriv =>
          match mkdir_helper fs (pjoin p.cfgbase p.id) tmpname with
          | none => (Except.error Err.ioError, p, fs)
          | some (tmpdir, fs1) =>
            let dhfile1 := pjoin tmpdir (("dh.pub.pem").data)
            match fs1.writeNew dhfile1 pub_pem with
            | none => (Except.error Err.ioError, p, fs1)
            | some fs2 =>
              let dhfile2 := pjoin tmpdir (("dh.priv.pem").data)
              match fs2.writeNew dhfile2 priv_pem with
              | none => (Except.error Err.ioError, p, fs2)
              | some fs3 =>
                let peerfile := pjoin tmpdir (("peer").data)
                let fs4 :=
                  if 0 < peer.length ∧ is_hex_hash peer then
                    fs3.setFile peerfile (peer ++ ['\n'])
                  else fs3
                let hexdir := pjoin (pjoin p.cfgbase p.id) hex
                if fs4.stat hexdir then
                  let fs5 := ((((fs4.unlink dhfile1).unlink dhfile2).unlink
                    peerfile).rmdir tmpdir)
                  (Except.error Err.conflict, p, fs5)
                else
                  match fs4.rename tmpdir hexdir with
                  | none =>
                    let fs5 := ((((fs4.unlink dhfile1).unlink dhfile2).unlink
                      peerfile).rmdir tmpdir)
                    (Except.error Err.conflict, p, fs5)
                  | some fs5 =>
                    let pbox : PKEYbox :=
                      { pub := some tpub, priv := some tpriv, pub_pem := pub_pem,
                        priv_pem := priv_pem, hex := hex, peer_id := peer }
                    (Except.ok pbox, { p with keys := mapInsert hex pbox p.keys }, fs5)

/-- `persona::add_dh_pubkey` (`keystore.cc` lines 1054-1113): parse the
incoming ephemeral public PEM, derive its hex (raw-integer hash for DH,
normalized-PEM hash for EC), return the existing KeyBox for an already-known
hex, otherwise stage a directory holding only `dh.pub.pem` and publish by
rename, cleaning the staging up on a conflict. -/
def persona.add_dh_pubkey (C : Crypto) (p : persona) (fs : FS) (pub_pem tmpname : Chars) :
    Except Err PKEYbox × persona × FS :=
  match C.parsePub pub_pem with
  | none => (Except.error Err.malformed, p, fs)
  | some t =>
    let hexRes : Except Err (Chars × Chars) :=
      match t with
      | KeyType.dh =>
        match C.dhPubBytes pub_pem with
        | none => Except.error Err.malformed
        | some bytes => Except.ok (pub_pem, C.md bytes)
      | KeyType.ec =>
        match normalize_and_hexhash C.md pub_pem with
        | none => Except.error Err.malformed
        | some (pem2, hex) => Except.ok (pem2, hex)
      | _ => Except.error Err.unsupported
    match hexRes with
    | Except.error e => (Except.error e, p, fs)
    | Except.ok (pem2, hex) =>
      match mapFind? p.keys hex with
      | some box => (Except.ok box, p, fs)
      | none =>
        match mkdir_helper fs (pjoin p.cfgbase p.id) tmpname with
        | none => (Except.error Err.ioError, p, fs)
        | some (tmpdir, fs1) =>
          let dhfile := pjoin tmpdir (("dh.pub.pem").data)
          match fs1.writeNew dhfile pem2 with
          | none => (Except.error Err.ioError, p, fs1)
          | some fs2 =>
            let hexdir := pjoin (pjoin p.cfgbase p.id) hex
            if fs2.stat hexdir then
              let fs3 := ((fs2.unlink dhfile).rmdir tmpdir)
              (Except.error Err.conflict, p, fs3)
            else
              match fs2.rename tmpdir hexdir with
              | none =>
                let fs3 := ((fs2.unlink dhfile).rmdir tmpdir)
                (Except.error Err.conflict, p, fs3)
              | some fs3 =>
                let pbox : PKEYbox :=
                  { pub := some t, priv := none, pub_pem := pem2, priv_pem := [],
                    hex := hex, peer_id := [] }
                (Except.ok pbox, { p with keys := mapInsert hex pbox p.keys }, fs3)

/-- `persona::link` (`keystore.cc` lines 1195-1211): truncate-write the
`srclink` file with `<hex>\n`. -/
def persona.link (p : persona) (fs : FS) (hex : Chars) : Except Err Unit × FS :=
  if is_hex_hash hex = false then (Except.error Err.invalidId, fs)
  else
    let file := pjoin (pjoin p.cfgbase p.id) (("srclink").data)
    (Except.ok (), fs.setFile file (hex ++ ['\n']))

/-- `keystore::load(hex)` (`keystore.cc` lines 161-171): validate the id,
construct a fresh persona, call `persona::load` — whose return value the
C++ discards — and insert the persona into the map unconditionally. -/
def keystore.load (C : Crypto) (ks : keystore) (fs : FS) (hex : Chars) :
    Except Err Unit × keystore :=
  if is_hex_hash hex = false then (Except.error Err.invalidId, ks)
  else
    let p0 := persona.fresh ks.cfgbase hex []
    let p1 := (persona.load C p0 fs []).2
    (Except.ok (), { ks with personas := mapInsert hex p1 ks.personas })

/-- `keystore::find_persona` (`keystore.cc` lines 349-367): invalid ids
fail; a 16-character argument is tried as a 64-bit short form by scanning
the map in iteration (key) order for the first id having it as a prefix;
otherwise (or when the scan misses) an exact map lookup. -/
def keystore.find_persona (ks : keystore) (hex : Chars) : Except Err persona :=
  if is_hex_hash hex = false then Except.error Err.invalidId
  else
    match (if hex.length = 16 then ks.personas.find? (fun kv => hex.isPrefixOf kv.1)
           else none) with
    | some kv => Except.ok kv.2
    | none =>
      match mapFind? ks.personas hex with
      | none => Except.error Err.notFound
      | some p => Except.ok p

/-- `keystore::add_persona` (`keystore.cc` lines 371-480): normalize and
hash the public PEM into the new identity, stage `name`, the typed public
PEM and the optional typed private PEM, publish by rename (cleaning up the
staging only on that rename failure), construct the persona, run the
optional DH-params step for RSA and insert into the map. -/
def keystore.add_persona (C : Crypto) (ks : keystore) (fs : FS)
    (name c_pub_pem priv_pem dhparams_pem tmpname : Chars) :
    Except Err persona × keystore × FS :=
  match normalize_and_hexhash C.md c_pub_pem with
  | none => (Except.error Err.malformed, ks, fs)
  | some (pub_pem, hex) =>
    match mkdir_helper fs ks.cfgbase tmpname with
    | none => (Except.error Err.ioError, ks, fs)
    | some (tmpdir, fs1) =>
      match (if 0 < name.length then
              fs1.writeNew (pjoin tmpdir (("name").data)) (name ++ ['\n'])
             else some fs1) with
      | none => (Except.error Err.ioError, ks, fs1)
      | some fs2 =>
        match C.parsePub pub_pem with
        | none => (Except.error Err.malformed, ks, fs2)
        | some tpub =>
          match keyTypeMarker tpub with
          | none => (Except.error Err.unsupported, ks, fs2)
          | some type1 =>
            match fs2.writeNew (pjoin tmpdir (type1 ++ (".pub.pem").data)) pub_pem with
            | none => (Except.error Err.ioError, ks, fs2)
            | some fs3 =>
              let privStep : Except Err (Option KeyType × FS) :=
                if 0 < priv_pem.length then
                  match C.parsePriv priv_pem with
                  | none => Except.error Err.malformed
                  | some tpriv =>
                    match keyTypeMarker tpriv with
                    | none => Except.error Err.unsupported
                    | some type2 =>
                      if type1 ≠ type2 then Except.error Err.mismatch
                      else
                        match fs3.writeNew (pjoin tmpdir (type2 ++ (".priv.pem").data))
                            priv_pem with
                        | none => Except.error Err.ioError
                        | some fs4 => Except.ok (some tpriv, fs4)
                else Except.ok (none, fs3)
              match privStep with
              | Except.error e => (Except.error e, ks, fs3)
              | Except.ok (privT, fs4) =>
                let hexdir := pjoin ks.cfgbase hex
                match fs4.rename tmpdir hexdir with
                | none =>
                  let fs5 := ((((fs4.unlink
                    (pjoin tmpdir (type1 ++ (".priv.pem").data))).unlink
                    (pjoin tmpdir (type1 ++ (".pub.pem").data))).unlink
                    (pjoin tmpdir (("name").data))).rmdir tmpdir)
                  (Except.error Err.conflict, ks, fs5)
                | some fs5 =>
                  let pk : PKEYbox :=
                    { pub := some tpub, priv := privT, pub_pem := pub_pem,
                      priv_pem := priv_pem, hex := [], peer_id := [] }
                  let p : persona :=
                    { cfgbase := ks.cfgbase, id := hex, name := name, link_src := [],
                      ptype := (if type1 = ("rsa").data then PType.rsa else PType.ec),
                      pkey := some pk, dh_params := none, keys := [] }
                  if 0 < dhparams_pem.length ∧ type1 = ("rsa").data then
                    match (if dhparams_pem = ("new").data then
                            persona.new_dh_params_fresh C p fs5
                           else persona.new_dh_params C p fs5 dhparams_pem) with
                    | (Except.error e, _, fs6) => (Except.error e, ks, fs6)
                    | (Except.ok _, p2, fs6) =>
                      (Except.ok p2, { ks with personas := mapInsert hex p2 ks.personas },
                        fs6)
                  else
                    (Except.ok p, { ks with personas := mapInsert hex p ks.personas }, fs5)

/-- A concrete kex hex id used by the test fixtures. -/
def hexC : Chars := (String.mk (List.replicate 64 'c')).data

/-- A concrete KeyBox for witnesses. -/
def boxW : PKEYbox :=
  { pub := some KeyType.ec, priv := some KeyType.ec, pub_pem := ("PB").data,
    priv_pem := ("PV").data, hex := hexC, peer_id := [] }

/-- A concrete EC persona holding one kex key. -/
def persEC : persona :=
  { cfgbase := ("/ks").data, id := (String.mk (List.replicate 64 'a')).data,
    name := [], link_src := [], ptype := PType.ec, pkey := some boxW,
    dh_params := none, keys := [(hexC, boxW)] }

/-- A concrete RSA persona with an empty kex map. -/
def persRSA : persona :=
  { cfgbase := ("/ks").data, id := (String.mk (List.replicate 64 'b')).data,
    name := [], link_src := [], ptype := PType.rsa, pkey := some boxW,
    dh_params := none, keys := [] }

/-- A filesystem fixture holding the private, used and peer files of the
kex key `hexC` of `persEC`. -/
def fsC8 : FS :=
  { dirs := [("/ks").data, pjoin ("/ks").data persEC.id,
      pjoin (pjoin ("/ks").data persEC.id) hexC],
    files := [(dhPrivPath persEC hexC, ("SECRETPEM").data),
      (usedPath persEC hexC, []), (peerPath persEC hexC, ("ff00").data)] }

/-- The 64-character id used for fixture personas. -/
def idA : Chars := (String.mk (List.replicate 64 'a')).data

/-- A crypto oracle for the kex-import fixture: everything parses as a DH
key whose raw public-integer bytes are the PEM itself. -/
def cryptoC6 : Crypto :=
  { md := id, parsePub := fun _ => some KeyType.dh, parsePriv := fun _ => none,
    parseDHparams := fun _ => false, dhPubBytes := fun pem => some pem,
    genEC := none, genDH := none, genDHparams := none }

/-- The concrete DH public PEM imported by the C6 fixture. -/
def pemD : Chars := ("DHPUBPEM").data

/-- A fresh fixture persona. -/
def persC6 : persona := persona.fresh ("/ks").data idA []

/-- The fixture store: just the base and the persona directory. -/
def fsC6 : FS :=
  { dirs := [("/ks").data, pjoin ("/ks").data persC6.id], files := [] }

/-- The KeyBox the first C6 import call returns. -/
def boxC6 : PKEYbox :=
  { pub := some KeyType.dh, priv := none, pub_pem := pemD, priv_pem := [],
    hex := pemD, peer_id := [] }

/-- The persona state after the first C6 import call. -/
def persC6post : persona := { persC6 with keys := [(pemD, boxC6)] }

/-- The filesystem after the first C6 import call: the staging directory
has been renamed to the hex directory holding `dh.pub.pem`. -/
def fsC6post : FS :=
  { dirs := [pjoin (pjoin ("/ks").data persC6.id) pemD, ("/ks").data,
      pjoin ("/ks").data persC6.id],
    files := [(pjoin (pjoin (pjoin ("/ks").data persC6.id) pemD)
      (("dh.pub.pem").data), pemD)] }

/-- A second 64-character id sharing its first 16 characters with `idA`. -/
def idB : Chars :=
  (String.mk (List.replicate 16 'a' ++ List.replicate 48 'b')).data

/-- A fixture persona with id `idA`. -/
def persA : persona := persona.fresh ("/ks").data idA (("A").data)

/-- A fixture persona with id `idB`. -/
def persB : persona := persona.fresh ("/ks").data idB (("B").data)

/-- A keystore holding two personas whose ids share a 16-char prefix, in
map iteration (sorted-key) order. -/
def ksC3 : keystore :=
  { cfgbase := ("/ks").data, personas := [(idA, persA), (idB, persB)] }

/-- A keystore holding only `persA`. -/
def ksSingle : keystore :=
  { cfgbase := ("/ks").data, personas := [(idA, persA)] }

/-- An RSA fixture persona with DH parameters, for the kex-generation
conflict witness. -/
def persW2 : persona := { persRSA with dh_params := some { pem := ("PARAMS").data } }

/-- A crypto oracle generating a fixed DH keypair. -/
def cryptoW2 : Crypto :=
  { md := id, parsePub := fun _ => some KeyType.dh,
    parsePriv := fun _ => some KeyType.dh, parseDHparams := fun _ => false,
    dhPubBytes := fun _ => none, genEC := none,
    genDH := some ((("GP").data, ("GS").data, ("GB").data)), genDHparams := none }

/-- A store where the kex directory `GB` already exists (conflict). -/
def fsW2 : FS :=
  { dirs := [("/ks").data, pjoin ("/ks").data persW2.id,
      pjoin (pjoin ("/ks").data persW2.id) (("GB").data)], files := [] }

/-- A store where the kex directory `pemD` already exists (conflict). -/
def fsW6 : FS :=
  { dirs := [("/ks").data, pjoin ("/ks").data persC6.id,
      pjoin (pjoin ("/ks").data persC6.id) pemD], files := [] }

/-- A store where the persona directory named by `pemClean`'s digest
already exists (conflict for `add_persona`). -/
def fsWA : FS :=
  { dirs := [("/ks").data, pjoin ("/ks").data pemCanon], files := [] }

/-- A crypto oracle that fails to parse any PEM; used by the C1 fixture. -/
def cryptoC1 : Crypto :=
  { md := id, parsePub := fun _ => none, parsePriv := fun _ => none,
    parseDHparams := fun _ => false, dhPubBytes := fun _ => none,
    genEC := none, genDH := none, genDHparams := none }

/-- An empty keystore over `/ks`. -/
def ksC1 : keystore := { cfgbase := ("/ks").data, personas := [] }

/-- A store containing only the base directory: any persona load fails. -/
def fsEmpty : FS := { dirs := [("/ks").data], files := [] }

/-- A crypto oracle whose private-key parser rejects everything; the
realizable shape of a store holding a corrupt `dh.priv.pem`. -/
def cryptoC10 : Crypto :=
  { md := id, parsePub := fun _ => some KeyType.ec, parsePriv := fun _ => none,
    parseDHparams := fun _ => false, dhPubBytes := fun _ => none,
    genEC := none, genDH := none, genDHparams := none }

/-- A fresh persona for the `load_dh` fixture. -/
def persC10 : persona :=
  persona.fresh ("/ks").data (String.mk (List.replicate 64 'a')).data []

/-- A store where the kex key `hexC` has a readable public half and a
non-empty private file that fails to parse. -/
def fsC10 : FS :=
  { dirs := [("/ks").data, pjoin ("/ks").data persC10.id,
      pjoin (pjoin ("/ks").data persC10.id) hexC],
    files := [(dhPubPath persC10 hexC, ("PUBPEM").data),
      (dhPrivPath persC10 hexC, ("CORRUPT").data)] }

theorem isPrefixOf_iff_take {pat l : Chars} :
    pat.isPrefixOf l = true ↔ l.take pat.length = pat := by
  induction pat generalizing l with
  | nil => simp [List.isPrefixOf]
  | cons p ps ih =>
    cases l with
    | nil => simp [List.isPrefixOf]
    | cons c cs =>
      simp only [List.isPrefixOf, Bool.and_eq_true, beq_iff_eq, List.take, List.cons.injEq, ih]
      tauto

theorem firstOcc_eq_some {pat s : Chars} {i : Nat} (h : firstOcc pat s = some i) :
    OccursAt pat s i ∧ ∀ j, j < i → ¬ OccursAt pat s j := by
  induction s generalizing i with
  | nil =>
    unfold firstOcc at h
    by_cases hp : pat.isPrefixOf ([] : Chars) = true
    · simp [hp] at h
      subst h
      refine ⟨?_, by omega⟩
      have := isPrefixOf_iff_take.mp hp
      simpa [OccursAt] using this
    · simp [hp] at h
  | cons c t ih =>
    unfold firstOcc at h
    by_cases hp : pat.isPrefixOf (c :: t) = true
    · simp [hp] at h
      subst h
      refine ⟨?_, by omega⟩
      have := isPrefixOf_iff_take.mp hp
      simpa [OccursAt] using this
    · simp [hp] at h
      obtain ⟨j, hj, rfl⟩ := h
      obtain ⟨h1, h2⟩ := ih hj
      constructor
      · simpa [OccursAt] using h1
      · intro k hk
        cases k with
        | zero =>
          intro hc
          exact hp (isPrefixOf_iff_take.mpr (by simpa [OccursAt] using hc))
        | succ k =>
          intro hc
          exact h2 k (by omega) (by simpa [OccursAt] using hc)

theorem firstOcc_eq_none {pat s : Chars} (h : firstOcc pat s = none) :
    ∀ j, ¬ OccursAt pat s j := by
  induction s with
  | nil =>
    unfold firstOcc at h
    by_cases hp : pat.isPrefixOf ([] : Chars) = true
    · simp [hp] at h
    · intro j hc
      rw [OccursAt] at hc
      apply hp
      apply isPrefixOf_iff_take.mpr
      cases j <;> simpa using hc
  | cons c t ih =>
    unfold firstOcc at h
    by_cases hp : pat.isPrefixOf (c :: t) = true
    · simp [hp] at h
    · simp [hp] at h
      intro j hc
      cases j with
      | zero => exact hp (isPrefixOf_iff_take.mpr (by simpa [OccursAt] using hc))
      | succ j => exact ih h j (by simpa [OccursAt] using hc)

theorem firstOcc_of_occurs {pat s : Chars} {j : Nat} (h : OccursAt pat s j) :
    ∃ i, firstOcc pat s = some i ∧ i ≤ j := by
  cases hf : firstOcc pat s with
  | none => exact absurd h (firstOcc_eq_none hf j)
  | some i =>
    refine ⟨i, rfl, ?_⟩
    by_contra hlt
    exact (firstOcc_eq_some hf).2 j (by omega) h

theorem firstOcc_eq_of {pat s : Chars} {i : Nat} (h : OccursAt pat s i)
    (hmin : ∀ j, j < i → ¬ OccursAt pat s j) : firstOcc pat s = some i := by
  obtain ⟨k, hk, hle⟩ := firstOcc_of_occurs h
  obtain ⟨hocc, _⟩ := firstOcc_eq_some hk
  rcases Nat.lt_or_ge k i with hlt | hge
  · exact absurd hocc (hmin k hlt)
  · have : k = i := by omega
    rw [hk, this]

theorem occursAt_le_length {pat s : Chars} {i : Nat} (hpat : pat ≠ [])
    (h : OccursAt pat s i) : i + pat.length ≤ s.length := by
  rw [OccursAt] at h
  have hlen := congrArg List.length h
  rw [List.length_take, List.length_drop] at hlen
  have hpos : 0 < pat.length := List.length_pos.mpr hpat
  omega

theorem occursAt_append_left {pat a b : Chars} {i : Nat} (hle : i + pat.length ≤ a.length) :
    OccursAt pat (a ++ b) i ↔ OccursAt pat a i := by
  rw [OccursAt, OccursAt, List.drop_append_eq_append_drop, Nat.sub_eq_zero_of_le (by omega),
    List.drop_zero, List.take_append_eq_append_take]
  have h1 : pat.length - (a.drop i).length = 0 := by
    rw [List.length_drop]; omega
  rw [h1, List.take_zero, List.append_nil]

theorem occursAt_append_right {pat g s : Chars} {i : Nat} (hge : g.length ≤ i) :
    OccursAt pat (g ++ s) i ↔ OccursAt pat s (i - g.length) := by
  rw [OccursAt, OccursAt, List.drop_append_eq_append_drop,
    List.drop_eq_nil_of_le hge, List.nil_append]

theorem occursAt_take {pat s : Chars} {n i : Nat} (h : OccursAt pat (s.take n) i) :
    OccursAt pat s i := by
  rw [OccursAt] at h ⊢
  rw [List.drop_take, List.take_take] at h
  have hlen := congrArg List.length h
  rw [List.length_take, List.length_drop] at hlen
  have hle : pat.length ≤ n - i := by omega
  rwa [min_eq_left hle] at h

theorem occursAt_take_of_le {pat s : Chars} {n i : Nat} (h : OccursAt pat s i)
    (hle : i + pat.length ≤ n) : OccursAt pat (s.take n) i := by
  rw [OccursAt] at h ⊢
  rw [List.drop_take, List.take_take, min_eq_left (by omega)]
  exact h

theorem occursAt_concat_of_ne_last {pat a : Chars} {x : Char} {i : Nat}
    (hpat : pat ≠ []) (hx : pat.getLast? ≠ some x)
    (h : OccursAt pat (a ++ [x]) i) : i + pat.length ≤ a.length := by
  by_contra hgt
  have hlen : i + pat.length ≤ a.length + 1 := by
    have := occursAt_le_length hpat h
    simpa using this
  have hi : i ≤ a.length := by
    have hp : 1 ≤ pat.length := by
      cases pat with
      | nil => exact absurd rfl hpat
      | cons c t => simp
    omega
  rw [OccursAt] at h
  have hdrop : (a ++ [x]).drop i = a.drop i ++ [x] := by
    rw [List.drop_append_eq_append_drop, Nat.sub_eq_zero_of_le hi, List.drop_zero]
  rw [hdrop] at h
  have hlen2 : (a.drop i ++ [x]).length = pat.length := by
    simp [List.length_drop]; omega
  have hall : a.drop i ++ [x] = pat := by
    rw [← h, List.take_of_length_le (by omega)]
  have : pat.getLast? = some x := by
    rw [← hall, List.getLast?_concat]
  exact hx this

theorem pub_begin_length : pub_begin.length = 26 := by decide

theorem pub_end_length : pub_end.length = 24 := by decide

theorem firstOcc_append_of_firstOcc {pat a b : Chars} {j : Nat} (hpat : pat ≠ [])
    (h : firstOcc pat a = some j) : firstOcc pat (a ++ b) = some j := by
  obtain ⟨hocc, hmin⟩ := firstOcc_eq_some h
  have hlen := occursAt_le_length hpat hocc
  apply firstOcc_eq_of ((occursAt_append_left hlen).mpr hocc)
  intro k hk hcon
  rcases le_or_lt (k + pat.length) a.length with hle | hgt
  · exact hmin k hk ((occursAt_append_left hle).mp hcon)
  · omega

theorem normalizePem_spec {s r : Chars} (h : normalizePem s = some r) :
    ∃ p e, firstOcc pub_begin s = some p ∧
      firstOcc pub_begin ((s.drop p).drop pub_begin.length) = none ∧
      firstOcc pub_end (s.drop p) = some e ∧
      r = (s.drop p).take (e + pub_end.length) ++ ['\n'] := by
  unfold normalizePem at h
  cases hB : firstOcc pub_begin s with
  | none => rw [hB] at h; cases h
  | some p =>
    rw [hB] at h
    simp only at h
    cases hdup : firstOcc pub_begin ((s.drop p).drop pub_begin.length) with
    | some q => rw [hdup] at h; cases h
    | none =>
      rw [hdup] at h
      cases hE : firstOcc pub_end (s.drop p) with
      | none => rw [hE] at h; cases h
      | some e =>
        rw [hE] at h
        exact ⟨p, e, rfl, hdup, hE, (Option.some.injEq _ _ ▸ h).symm⟩

theorem normalizePem_build {s : Chars} {p e : Nat}
    (hB : firstOcc pub_begin s = some p)
    (hdup : firstOcc pub_begin ((s.drop p).drop pub_begin.length) = none)
    (hE : firstOcc pub_end (s.drop p) = some e) :
    normalizePem s = some ((s.drop p).take (e + pub_end.length) ++ ['\n']) := by
  unfold normalizePem
  rw [hB]
  simp only
  rw [hdup, hE]

/-- A second END-marker occurrence cannot start at offset 0 or 1 of a string
that starts with the BEGIN marker. -/
theorem pubEnd_occ_ge_two {s1 : Chars} {e : Nat} (hB : s1.take 26 = pub_begin)
    (hE : OccursAt pub_end s1 e) : 2 ≤ e := by
  by_contra hcon
  push_neg at hcon
  rw [OccursAt, pub_end_length] at hE
  interval_cases e
  · rw [List.drop_zero] at hE
    have h24 : (s1.take 26).take 24 = pub_end := by
      rw [List.take_take]
      exact (by norm_num : min 24 26 = 24) ▸ hE
    rw [hB] at h24
    exact absurd h24 (by decide)
  · have h1 : ((s1.take 26).drop 1).take 24 = pub_end := by
      rw [List.drop_take, List.take_take]
      exact (by norm_num : min 24 (26 - 1) = 24) ▸ hE
    rw [hB] at h1
    exact absurd h1 (by decide)

theorem pub_begin_ne_nil : pub_begin ≠ [] := by decide

theorem pub_end_ne_nil : pub_end ≠ [] := by decide

theorem pub_begin_getLast : pub_begin.getLast? ≠ some '\n' := by decide

theorem pub_end_getLast : pub_end.getLast? ≠ some '\n' := by decide

theorem normalizePem_idem {s r : Chars} (h : normalizePem s = some r) :
    normalizePem r = some r := by
  obtain ⟨p, e, hB, hdup, hE, hr⟩ := normalizePem_spec h
  rw [pub_begin_length] at hdup
  rw [pub_end_length] at hr
  set s1 := s.drop p with hs1
  obtain ⟨hoccB, _⟩ := firstOcc_eq_some hB
  obtain ⟨hoccE, hminE⟩ := firstOcc_eq_some hE
  have hB26 : s1.take 26 = pub_begin := by
    rw [OccursAt, pub_begin_length, ← hs1] at hoccB
    exact hoccB
  have he2 : 2 ≤ e := pubEnd_occ_ge_two hB26 hoccE
  have hlenE : e + 24 ≤ s1.length := by
    have := occursAt_le_length pub_end_ne_nil hoccE
    rwa [pub_end_length] at this
  set r0 : Chars := s1.take (e + 24) with hr0
  have hr0len : r0.length = e + 24 := by
    rw [hr0, List.length_take]; omega
  have hBr : firstOcc pub_begin r = some 0 := by
    apply firstOcc_eq_of
    · rw [OccursAt, List.drop_zero, pub_begin_length, hr,
        List.take_append_eq_append_take, hr0len, Nat.sub_eq_zero_of_le (by omega),
        List.take_zero, List.append_nil, hr0, List.take_take,
        min_eq_left (by omega : 26 ≤ e + 24)]
      exact hB26
    · intro j hj; omega
  have hdrop26 : r.drop 26 = r0.drop 26 ++ ['\n'] := by
    rw [hr, List.drop_append_eq_append_drop, hr0len,
      Nat.sub_eq_zero_of_le (by omega), List.drop_zero]
  have hdup_r : firstOcc pub_begin (r.drop 26) = none := by
    cases hx : firstOcc pub_begin (r.drop 26) with
    | none => rfl
    | some k =>
      exfalso
      obtain ⟨hocck, _⟩ := firstOcc_eq_some hx
      rw [hdrop26] at hocck
      have hk : k + pub_begin.length ≤ (r0.drop 26).length :=
        occursAt_concat_of_ne_last pub_begin_ne_nil pub_begin_getLast hocck
      have hocck2 : OccursAt pub_begin (r0.drop 26) k :=
        (occursAt_append_left hk).mp hocck
      rw [hr0, List.drop_take] at hocck2
      exact firstOcc_eq_none hdup k (occursAt_take hocck2)
  have hoccE_r0 : OccursAt pub_end r0 e := by
    rw [hr0]
    apply occursAt_take_of_le hoccE
    rw [pub_end_length]
  have hEr : firstOcc pub_end r = some e := by
    apply firstOcc_eq_of
    · rw [hr]
      refine (occursAt_append_left ?_).mpr hoccE_r0
      rw [pub_end_length, hr0len]
    · intro j hj hocc
      rw [hr] at hocc
      have hjle : j + pub_end.length ≤ r0.length :=
        occursAt_concat_of_ne_last pub_end_ne_nil pub_end_getLast hocc
      have hocc2 : OccursAt pub_end r0 j := (occursAt_append_left hjle).mp hocc
      rw [hr0] at hocc2
      exact hminE j hj (occursAt_take hocc2)
  have := normalizePem_build hBr
    (by rw [List.drop_zero, pub_begin_length]; exact hdup_r)
    (by rw [List.drop_zero]; exact hEr)
  rw [this, List.drop_zero, pub_end_length, hr, List.take_append_eq_append_take,
    hr0len, Nat.sub_self, List.take_zero, List.append_nil,
    List.take_of_length_le (by omega)]

theorem normalizePem_congr {s t : Chars} {p q : Nat}
    (hs : firstOcc pub_begin s = some p) (ht : firstOcc pub_begin t = some q)
    (hdrop : s.drop p = t.drop q) : normalizePem s = normalizePem t := by
  unfold normalizePem
  rw [hs, ht]
  simp only
  rw [hdrop]

theorem normalizePem_prefix {g s : Chars}
    (hg0 : ∀ i, i < g.length → ¬ OccursAt pub_begin (g ++ s) i) :
    normalizePem (g ++ s) = normalizePem s := by
  have hg : ∀ i, OccursAt pub_begin (g ++ s) i → g.length ≤ i := by
    intro i hocc
    by_contra hlt
    exact hg0 i (by omega) hocc
  cases hB : firstOcc pub_begin s with
  | none =>
    have hBg : firstOcc pub_begin (g ++ s) = none := by
      cases hx : firstOcc pub_begin (g ++ s) with
      | none => rfl
      | some i =>
        exfalso
        obtain ⟨hocc, _⟩ := firstOcc_eq_some hx
        have hge := hg i hocc
        exact firstOcc_eq_none hB _ ((occursAt_append_right hge).mp hocc)
    unfold normalizePem
    rw [hB, hBg]
  | some p =>
    obtain ⟨hocc, hmin⟩ := firstOcc_eq_some hB
    have hoccg : OccursAt pub_begin (g ++ s) (g.length + p) := by
      rw [occursAt_append_right (by omega), Nat.add_sub_cancel_left]
      exact hocc
    have hBg : firstOcc pub_begin (g ++ s) = some (g.length + p) := by
      apply firstOcc_eq_of hoccg
      intro j hj hocc2
      have hge := hg j hocc2
      exact hmin (j - g.length) (by omega) ((occursAt_append_right hge).mp hocc2)
    apply normalizePem_congr hBg hB
    rw [List.drop_append_eq_append_drop, List.drop_eq_nil_of_le (by omega),
      List.nil_append, Nat.add_sub_cancel_left]

theorem normalizePem_append {s t r r' : Chars} (h : normalizePem s = some r)
    (h2 : normalizePem (s ++ t) = some r') : r' = r := by
  obtain ⟨p, e, hB, hdup, hE, hr⟩ := normalizePem_spec h
  obtain ⟨p2, e2, hB2, hdup2, hE2, hr2⟩ := normalizePem_spec h2
  have hBapp : firstOcc pub_begin (s ++ t) = some p :=
    firstOcc_append_of_firstOcc pub_begin_ne_nil hB
  rw [hBapp] at hB2
  injection hB2 with hp
  subst hp
  have hple : p ≤ s.length := by
    have := occursAt_le_length pub_begin_ne_nil (firstOcc_eq_some hB).1
    omega
  have hdropp : (s ++ t).drop p = s.drop p ++ t := by
    rw [List.drop_append_eq_append_drop, Nat.sub_eq_zero_of_le hple, List.drop_zero]
  rw [hdropp] at hE2 hr2
  have hEapp : firstOcc pub_end (s.drop p ++ t) = some e :=
    firstOcc_append_of_firstOcc pub_end_ne_nil hE
  rw [hEapp] at hE2
  injection hE2 with he
  subst he
  have hlenE : e + pub_end.length ≤ (s.drop p).length :=
    occursAt_le_length pub_end_ne_nil (firstOcc_eq_some hE).1
  rw [List.take_append_eq_append_take, Nat.sub_eq_zero_of_le hlenE,
    List.take_zero, List.append_nil] at hr2
  rw [hr2, hr]

theorem occursAt_drop {pat s : Chars} {m j : Nat} (hm : m ≤ j) (h : OccursAt pat s j) :
    OccursAt pat (s.drop m) (j - m) := by
  rw [OccursAt] at h ⊢
  rw [List.drop_drop]
  have harith : m + (j - m) = j := by omega
  rw [harith]
  exact h

/-- C4 (amended): normalization is idempotent
(`normalize(normalize(x)) = normalize(x)`, hence equal digests), and the
canonical form is stable under prefix garbage provided the garbage
introduces no BEGIN-marker occurrence before the original one, and under
appended trailing bytes whenever the extended input is still accepted.
(Unconditional prefix stability is false: see the counterexample.) -/
theorem C4_normalize_idempotent_and_stable (md : Chars → Chars) (s : Chars) :
    (∀ c h, normalize_and_hexhash md s = some (c, h) →
        normalize_and_hexhash md c = some (c, h)) ∧
    (∀ g, (∀ i, i < g.length → ¬ OccursAt pub_begin (g ++ s) i) →
        normalize_and_hexhash md (g ++ s) = normalize_and_hexhash md s) ∧
    (∀ t c h c2 h2, normalize_and_hexhash md s = some (c, h) →
        normalize_and_hexhash md (s ++ t) = some (c2, h2) → c2 = c ∧ h2 = h) := by
  refine ⟨?_, ?_, ?_⟩
  · intro c h hn
    rw [normalize_and_hexhash] at hn
    obtain ⟨c0, hc0, hf⟩ := Option.map_eq_some'.mp hn
    obtain ⟨rfl, rfl⟩ : c0 = c ∧ md c0 = h := by
      refine ⟨congrArg Prod.fst hf, congrArg Prod.snd hf⟩
    rw [normalize_and_hexhash, normalizePem_idem hc0, Option.map_some']
  · intro g hg
    rw [normalize_and_hexhash, normalize_and_hexhash, normalizePem_prefix hg]
  · intro t c h c2 h2 hn hn2
    rw [normalize_and_hexhash] at hn hn2
    obtain ⟨c0, hc0, hf⟩ := Option.map_eq_some'.mp hn
    obtain ⟨rfl, rfl⟩ : c0 = c ∧ md c0 = h :=
      ⟨congrArg Prod.fst hf, congrArg Prod.snd hf⟩
    obtain ⟨c1, hc1, hf2⟩ := Option.map_eq_some'.mp hn2
    obtain ⟨rfl, rfl⟩ : c1 = c2 ∧ md c1 = h2 :=
      ⟨congrArg Prod.fst hf2, congrArg Prod.snd hf2⟩
    have := normalizePem_append hc0 hc1
    exact ⟨this, congrArg md this⟩

/-- C4 counterexample: `pemOverlap` is accepted, and so is
`garbOverlap ++ pemOverlap` (prefix garbage before the first BEGIN marker),
but the two canonical forms — hence their digests — differ, because the
garbage completes an overlapping extra BEGIN occurrence that the duplicate
check misses. -/
theorem C4_counterexample :
    (normalize_and_hexhash id pemOverlap).isSome = true ∧
    (normalize_and_hexhash id (garbOverlap ++ pemOverlap)).isSome = true ∧
    normalize_and_hexhash id (garbOverlap ++ pemOverlap) ≠
      normalize_and_hexhash id pemOverlap := by
  decide

/-- C4 witness: the amended theorem applied at concrete inputs. -/
theorem C4_witness :
    normalize_and_hexhash id (("garbage\n").data ++ pemClean) =
      normalize_and_hexhash id pemClean ∧
    normalize_and_hexhash id pemCanon = some (pemCanon, pemCanon) ∧
    pemCanon = pemCanon ∧ pemCanon = pemCanon := by
  refine ⟨(C4_normalize_idempotent_and_stable id pemClean).2.1 (("garbage\n").data)
      (by decide), (C4_normalize_idempotent_and_stable id pemClean).1 pemCanon pemCanon
      (by decide), (C4_normalize_idempotent_and_stable id pemClean).2.2
      (("trailing").data) pemCanon pemCanon pemCanon pemCanon (by decide) (by decide)⟩

/-- C5 (amended): `normalize_and_hexhash` fails when the BEGIN marker is
absent, when no END marker exists in the retained tail, and when a second
BEGIN-marker occurrence starts at offset `pub_begin.size()` or more past the
first one.  (A second occurrence overlapping the first — offset difference
below `pub_begin.size()` — escapes the check: see the counterexample.) -/
theorem C5_single_key_rejection (md : Chars → Chars) (s : Chars) :
    (firstOcc pub_begin s = none → normalize_and_hexhash md s = none) ∧
    (∀ p, firstOcc pub_begin s = some p → firstOcc pub_end (s.drop p) = none →
        normalize_and_hexhash md s = none) ∧
    (∀ p j, firstOcc pub_begin s = some p → OccursAt pub_begin s j →
        p + pub_begin.length ≤ j → normalize_and_hexhash md s = none) := by
  refine ⟨?_, ?_, ?_⟩
  · intro hB
    rw [normalize_and_hexhash]
    unfold normalizePem
    rw [hB]
    rfl
  · intro p hB hE
    rw [normalize_and_hexhash]
    unfold normalizePem
    rw [hB]
    simp only
    cases hdup : firstOcc pub_begin ((s.drop p).drop pub_begin.length) with
    | some q => rfl
    | none => rw [hE]; rfl
  · intro p j hB hocc hle
    have hocc2 : OccursAt pub_begin ((s.drop p).drop pub_begin.length)
        (j - (p + pub_begin.length)) := by
      have h1 := occursAt_drop (m := p + pub_begin.length) (by omega) hocc
      rwa [← List.drop_drop] at h1
    obtain ⟨k, hk, _⟩ := firstOcc_of_occurs hocc2
    rw [normalize_and_hexhash]
    unfold normalizePem
    rw [hB]
    simp only
    rw [hk]
    rfl

/-- C5 counterexample: `pemDouble` contains the public-key BEGIN marker at
the two distinct offsets 0 and 21, yet `normalize_and_hexhash` accepts it. -/
theorem C5_counterexample :
    OccursAt pub_begin pemDouble 0 ∧ OccursAt pub_begin pemDouble 21 ∧
    (normalize_and_hexhash id pemDouble).isSome = true := by
  decide

/-- C5 witness: the amended theorem applied at concrete inputs. -/
theorem C5_witness :
    normalize_and_hexhash id (("text with no marker at all").data) = none ∧
    normalize_and_hexhash id pub_begin = none ∧
    normalize_and_hexhash id (pub_begin ++ pub_begin) = none := by
  refine ⟨(C5_single_key_rejection id _).1 (by decide),
    (C5_single_key_rejection id _).2.1 0 (by decide) (by decide),
    (C5_single_key_rejection id _).2.2 0 26 (by decide) (by decide) (by decide)⟩

theorem mapFind?_insert_self {α : Type} (k : Chars) (v : α) (m : List (Chars × α)) :
    mapFind? (mapInsert k v m) k = some v := by
  induction m with
  | nil => simp [mapInsert, mapFind?]
  | cons e t ih =>
    obtain ⟨k2, v2⟩ := e
    by_cases h : k = k2
    · subst h
      simp [mapInsert, mapFind?]
    · by_cases h2 : ltChars k k2 = true
      · simp [mapInsert, h, h2, mapFind?]
      · simp [mapInsert, h, h2, mapFind?, ih]

theorem mapFind?_insert_ne {α : Type} {k k2 : Chars} (v : α) (m : List (Chars × α))
    (h : k2 ≠ k) : mapFind? (mapInsert k v m) k2 = mapFind? m k2 := by
  induction m with
  | nil => simp [mapInsert, mapFind?, h]
  | cons e t ih =>
    obtain ⟨k3, v3⟩ := e
    by_cases hk : k = k3
    · subst hk
      simp [mapInsert, mapFind?, h]
    · by_cases h2 : ltChars k k3 = true
      · simp [mapInsert, hk, h2, mapFind?, h]
      · simp only [mapInsert, if_neg hk, if_neg h2, mapFind?]
        by_cases h3 : k2 = k3 <;> simp [h3, ih]

theorem mem_mapInsert {α : Type} {e : Chars × α} {k : Chars} {v : α}
    {m : List (Chars × α)} (h : e ∈ mapInsert k v m) : e = (k, v) ∨ e ∈ m := by
  induction m with
  | nil => simpa [mapInsert] using h
  | cons e2 t ih =>
    obtain ⟨k2, v2⟩ := e2
    by_cases hk : k = k2
    · subst hk
      simp [mapInsert] at h
      rcases h with h | h
      · exact Or.inl (by simp [h])
      · exact Or.inr (by simp [h])
    · by_cases h2 : ltChars k k2 = true
      · simp [mapInsert, hk, h2] at h
        rcases h with h | h | h
        · exact Or.inl (by simp [h])
        · exact Or.inr (by simp [h])
        · exact Or.inr (by simp [h])
      · simp only [mapInsert, if_neg hk, if_neg h2, List.mem_cons] at h
        rcases h with h | h
        · exact Or.inr (by simp [h])
        · rcases ih h with h3 | h3
          · exact Or.inl h3
          · exact Or.inr (List.mem_cons_of_mem _ h3)

theorem mem_mapErase {α : Type} {e : Chars × α} {k : Chars} {m : List (Chars × α)}
    (h : e ∈ mapErase k m) : e ∈ m ∧ e.1 ≠ k := by
  induction m with
  | nil => exact absurd h (by simp [mapErase])
  | cons e2 t ih =>
    obtain ⟨k2, v2⟩ := e2
    by_cases hk : k2 = k
    · rw [mapErase, if_pos hk] at h
      obtain ⟨h1, h2⟩ := ih h
      exact ⟨List.mem_cons_of_mem _ h1, h2⟩
    · rw [mapErase, if_neg hk] at h
      rcases List.mem_cons.mp h with h | h
      · subst h
        exact ⟨List.mem_cons_self _ _, hk⟩
      · obtain ⟨h1, h2⟩ := ih h
        exact ⟨List.mem_cons_of_mem _ h1, h2⟩

theorem is_hex_hash_rsa_kex_id : is_hex_hash rsa_kex_id = true := by decide

theorem is_hex_hash_ec_kex_id : is_hex_hash ec_kex_id = true := by decide

/-- C7: `find_kex(ec_kex_id)` returns the long-term KeyBox on an EC persona
and fails `NotFound` on an RSA persona whose kex map lacks the sentinel; any
other hex is a plain map lookup: `NotFound` when absent, the mapped KeyBox
when present. -/
theorem C7_find_kex_ec_fallback (p : persona) (hex : Chars) :
    (p.ptype = PType.ec → p.find_dh_key ec_kex_id = Except.ok p.pkey) ∧
    (p.ptype = PType.rsa → mapFind? p.keys ec_kex_id = none →
      p.find_dh_key ec_kex_id = Except.error Err.notFound) ∧
    (hex ≠ ec_kex_id → mapFind? p.keys hex = none →
      p.find_dh_key hex = Except.error Err.notFound) ∧
    (∀ box, hex ≠ ec_kex_id → mapFind? p.keys hex = some box →
      p.find_dh_key hex = Except.ok (some box)) := by
  refine ⟨?_, ?_, ?_, ?_⟩
  · intro hec
    simp [persona.find_dh_key, hec]
  · intro hrsa hnone
    simp [persona.find_dh_key, hrsa, hnone]
  · intro hne hnone
    have : ¬ (hex = ec_kex_id ∧ p.ptype = PType.ec) := by simp [hne]
    simp [persona.find_dh_key, this, hnone]
  · intro box hne hsome
    have : ¬ (hex = ec_kex_id ∧ p.ptype = PType.ec) := by simp [hne]
    simp [persona.find_dh_key, this, hsome]

/-- C7 witness: the theorem applied to the concrete personas. -/
theorem C7_witness :
    persona.find_dh_key persEC ec_kex_id = Except.ok (some boxW) ∧
    persona.find_dh_key persRSA ec_kex_id = Except.error Err.notFound ∧
    persona.find_dh_key persRSA hexC = Except.error Err.notFound ∧
    persona.find_dh_key persEC hexC = Except.ok (some boxW) := by
  refine ⟨(C7_find_kex_ec_fallback persEC []).1 rfl,
    (C7_find_kex_ec_fallback persRSA []).2.1 rfl (by decide),
    (C7_find_kex_ec_fallback persRSA hexC).2.2.1 (by decide) (by decide),
    (C7_find_kex_ec_fallback persEC hexC).2.2.2 boxW (by decide) (by decide)⟩

/-- C9: both reserved sentinels make `delete_kex` (`del_dh_id`),
`delete_kex_private` (`del_dh_priv`) and `mark_used` (`used_key`) no-ops
with success status: the result is success and neither the persona (its kex
map included) nor the filesystem changes. -/
theorem C9_sentinel_inert (p : persona) (fs : FS) :
    persona.del_dh_id p fs rsa_kex_id = (Except.ok (), p, fs) ∧
    persona.del_dh_id p fs ec_kex_id = (Except.ok (), p, fs) ∧
    persona.del_dh_priv p fs rsa_kex_id = (Except.ok (), p, fs) ∧
    persona.del_dh_priv p fs ec_kex_id = (Except.ok (), p, fs) ∧
    persona.used_key p fs rsa_kex_id true = fs ∧
    persona.used_key p fs rsa_kex_id false = fs ∧
    persona.used_key p fs ec_kex_id true = fs ∧
    persona.used_key p fs ec_kex_id false = fs := by
  refine ⟨?_, ?_, ?_, ?_, ?_, ?_, ?_, ?_⟩ <;>
    simp [persona.del_dh_id, persona.del_dh_priv, persona.used_key,
      is_hex_hash_rsa_kex_id, is_hex_hash_ec_kex_id]

theorem mapFind?_erase_self {α : Type} (k : Chars) (m : List (Chars × α)) :
    mapFind? (mapErase k m) k = none := by
  induction m with
  | nil => rfl
  | cons e t ih =>
    obtain ⟨k2, v2⟩ := e
    by_cases h : k2 = k
    · rw [mapErase, if_pos h]
      exact ih
    · rw [mapErase, if_neg h, mapFind?, if_neg (fun hc => h hc.symm)]
      exact ih

theorem mapFind?_erase_ne {α : Type} {k k2 : Chars} (m : List (Chars × α))
    (h : k2 ≠ k) : mapFind? (mapErase k m) k2 = mapFind? m k2 := by
  induction m with
  | nil => rfl
  | cons e t ih =>
    obtain ⟨k3, v3⟩ := e
    by_cases h3 : k3 = k
    · subst h3
      rw [mapErase, if_pos rfl, mapFind?, if_neg h]
      exact ih
    · rw [mapErase, if_neg h3, mapFind?, mapFind?]
      by_cases h4 : k2 = k3 <;> simp [h4, ih]

theorem pjoin_right_inj {a b1 b2 : Chars} (h : pjoin a b1 = pjoin a b2) : b1 = b2 := by
  unfold pjoin at h
  have h2 := List.append_cancel_left h
  simpa using h2

theorem del_dh_priv_rw {p : persona} {fs : FS} {hex content : Chars}
    (hc1 : ¬ is_hex_hash hex = false) (hc2 : ¬ (hex = rsa_kex_id ∨ hex = ec_kex_id))
    (hfile : fs.readFile (dhPrivPath p hex) = some content) :
    persona.del_dh_priv p fs hex =
      (Except.ok (),
       (match mapFind? p.keys hex with
        | none => p
        | some box =>
          { p with keys := mapInsert hex { box with priv_pem := [], priv := none } p.keys }),
       (((fs.setFile (dhPrivPath p hex) (shredContent content.length)).unlink
          (dhPrivPath p hex)).unlink (usedPath p hex)).unlink (peerPath p hex)) := by
  rw [dhPrivPath] at hfile
  simp only [persona.del_dh_priv, if_neg hc1, if_neg hc2, hfile]
  rw [dhPrivPath, usedPath, peerPath]

/-- C8: on a valid non-sentinel kex hex, when `dh.priv.pem` exists
`delete_kex_private` succeeds, afterwards `dh.priv.pem`, `used` and `peer`
are gone (the overwrite pass having covered the whole file with zero
bytes in 512-byte blocks), the in-memory KeyBox keeps its public half but
loses `priv_pem` and the private handle; when the file does not exist the
call fails `NotFound`. -/
theorem C8_delete_kex_private_shreds (p : persona) (fs : FS) (hex : Chars)
    (hhex : is_hex_hash hex = true) (h1 : hex ≠ rsa_kex_id) (h2 : hex ≠ ec_kex_id) :
    (∀ content, fs.readFile (dhPrivPath p hex) = some content →
      (persona.del_dh_priv p fs hex).1 = Except.ok () ∧
      (persona.del_dh_priv p fs hex).2.2.hasFile (dhPrivPath p hex) = false ∧
      (persona.del_dh_priv p fs hex).2.2.hasFile (usedPath p hex) = false ∧
      (persona.del_dh_priv p fs hex).2.2.hasFile (peerPath p hex) = false ∧
      (∀ box, mapFind? p.keys hex = some box →
        mapFind? (persona.del_dh_priv p fs hex).2.1.keys hex =
          some { box with priv_pem := [], priv := none }) ∧
      (∀ ch ∈ shredContent content.length, ch = Char.ofNat 0) ∧
      content.length ≤ (shredContent content.length).length) ∧
    (fs.readFile (dhPrivPath p hex) = none →
      persona.del_dh_priv p fs hex = (Except.error Err.notFound, p, fs)) := by
  have hc1 : ¬ (is_hex_hash hex = false) := by simp [hhex]
  have hc2 : ¬ (hex = rsa_kex_id ∨ hex = ec_kex_id) := by
    intro hc
    rcases hc with hc | hc
    · exact h1 hc
    · exact h2 hc
  have hne_pu : dhPrivPath p hex ≠ usedPath p hex := by
    intro heq
    exact absurd (pjoin_right_inj heq) (by decide)
  have hne_pp : dhPrivPath p hex ≠ peerPath p hex := by
    intro heq
    exact absurd (pjoin_right_inj heq) (by decide)
  have hne_up : usedPath p hex ≠ peerPath p hex := by
    intro heq
    exact absurd (pjoin_right_inj heq) (by decide)
  constructor
  · intro content hfile
    have hrw := del_dh_priv_rw hc1 hc2 hfile
    refine ⟨?_, ?_, ?_, ?_, ?_, ?_, ?_⟩
    · rw [hrw]
    · rw [hrw]
      simp only [FS.hasFile, FS.readFile, FS.unlink, FS.setFile]
      rw [mapFind?_erase_ne _ hne_pp, mapFind?_erase_ne _ hne_pu, mapFind?_erase_self]
      rfl
    · rw [hrw]
      simp only [FS.hasFile, FS.readFile, FS.unlink, FS.setFile]
      rw [mapFind?_erase_ne _ hne_up, mapFind?_erase_self]
      rfl
    · rw [hrw]
      simp only [FS.hasFile, FS.readFile, FS.unlink, FS.setFile]
      rw [mapFind?_erase_self]
      rfl
    · intro box hbox
      rw [hrw]
      simp only [hbox]
      exact mapFind?_insert_self _ _ _
    · intro ch hch
      exact List.eq_of_mem_replicate hch
    · rw [shredContent, List.length_replicate]
      omega
  · intro hnone
    rw [dhPrivPath] at hnone
    simp only [persona.del_dh_priv, if_neg hc1, if_neg hc2, hnone]

/-- C10: `load_dh` is not atomic on error: with a valid kex hex whose
`dh.priv.pem` exists but is empty or unparsable, the call errors, yet the
kex map holds the KeyBox inserted during the public phase (its private half
empty, its public half whatever was read); the map is not rolled back. -/
theorem C10_load_dh_not_atomic (C : Crypto) (p : persona) (fs : FS) (hex content : Chars)
    (hhex : is_hex_hash hex = true)
    (hfile : fs.readFile (dhPrivPath p hex) = some content)
    (hbad : content.length = 0 ∨ C.parsePriv content = none) :
    (persona.load_dh C p fs hex).1 = Except.error Err.malformed ∧
    (persona.load_dh C p fs hex).2.keys =
      mapInsert hex (loadDhPubBox C fs (pjoin (pjoin p.cfgbase p.id) hex) hex) p.keys ∧
    mapFind? (persona.load_dh C p fs hex).2.keys hex =
      some (loadDhPubBox C fs (pjoin (pjoin p.cfgbase p.id) hex) hex) ∧
    (loadDhPubBox C fs (pjoin (pjoin p.cfgbase p.id) hex) hex).priv = none ∧
    (loadDhPubBox C fs (pjoin (pjoin p.cfgbase p.id) hex) hex).priv_pem = [] := by
  have hc1 : ¬ is_hex_hash hex = false := by simp [hhex]
  rw [dhPrivPath] at hfile
  have hbox : ∀ d : Chars, (loadDhPubBox C fs d hex).priv = none ∧
      (loadDhPubBox C fs d hex).priv_pem = [] := by
    intro d
    rw [loadDhPubBox]
    cases loadDhPub C fs d with
    | none => exact ⟨rfl, rfl⟩
    | some tp =>
      obtain ⟨t, pem⟩ := tp
      exact ⟨rfl, rfl⟩
  by_cases hlen : content.length = 0
  · refine ⟨?_, ?_, ?_, (hbox _).1, (hbox _).2⟩ <;>
      simp only [persona.load_dh, if_neg hc1, hfile, if_pos hlen]
    exact mapFind?_insert_self _ _ _
  · have hparse : C.parsePriv content = none := by
      rcases hbad with hb | hb
      · exact absurd hb hlen
      · exact hb
    refine ⟨?_, ?_, ?_, (hbox _).1, (hbox _).2⟩ <;>
      simp only [persona.load_dh, if_neg hc1, hfile, if_neg hlen, hparse]
    exact mapFind?_insert_self _ _ _

/-- C10 witness: the theorem applied to the concrete fixture. -/
theorem C10_witness :
    (persona.load_dh cryptoC10 persC10 fsC10 hexC).1 = Except.error Err.malformed ∧
    mapFind? (persona.load_dh cryptoC10 persC10 fsC10 hexC).2.keys hexC =
      some (loadDhPubBox cryptoC10 fsC10
        (pjoin (pjoin persC10.cfgbase persC10.id) hexC) hexC) := by
  obtain ⟨h1, _, h3, _, _⟩ :=
    C10_load_dh_not_atomic cryptoC10 persC10 fsC10 hexC (("CORRUPT").data)
      (by decide) (by decide) (Or.inr rfl)
  exact ⟨h1, h3⟩

/-- C6: importing the same ephemeral public key twice is idempotent: after
a first `add_dh_pubkey` call that succeeds, a second call with the same PEM
returns the very KeyBox stored in the kex map under the derived hex — the
handle the first call returned — and leaves the persona and the filesystem
(no new directory, no staging) untouched. -/
theorem C6_add_kex_pubkey_idempotent (C : Crypto) (p : persona) (fs : FS)
    (pem tmp tmp2 : Chars) (box : PKEYbox) (p2 : persona) (fs2 : FS)
    (h : persona.add_dh_pubkey C p fs pem tmp = (Except.ok box, p2, fs2)) :
    persona.add_dh_pubkey C p2 fs2 pem tmp2 = (Except.ok box, p2, fs2) := by
  unfold persona.add_dh_pubkey at h ⊢
  cases hp : C.parsePub pem with
  | none => rw [hp] at h; simp at h
  | some t =>
    rw [hp] at h
    cases t with
    | rsa => simp at h
    | other => simp at h
    | dh =>
      cases hd : C.dhPubBytes pem with
      | none => rw [hd] at h; simp at h
      | some bytes =>
        rw [hd] at h
        dsimp only [] at h
        cases hm : mapFind? p.keys (C.md bytes) with
        | some b =>
          rw [hm] at h
          dsimp only [] at h
          simp only [Prod.mk.injEq, Except.ok.injEq] at h
          obtain ⟨hb, hpp, hff⟩ := h
          subst hb; subst hpp; subst hff
          dsimp only []
          rw [hm]
        | none =>
          rw [hm] at h
          dsimp only [] at h
          cases hmk : mkdir_helper fs (pjoin p.cfgbase p.id) tmp with
          | none => rw [hmk] at h; simp at h
          | some pr =>
            obtain ⟨tmpdir, fs1⟩ := pr
            rw [hmk] at h
            dsimp only [] at h
            cases hw : fs1.writeNew (pjoin tmpdir (("dh.pub.pem").data)) pem with
            | none => rw [hw] at h; simp at h
            | some fsb =>
              rw [hw] at h
              dsimp only [] at h
              by_cases hst : fsb.stat (pjoin (pjoin p.cfgbase p.id) (C.md bytes)) = true
              · rw [if_pos hst] at h; simp at h
              · rw [if_neg hst] at h
                cases hr : fsb.rename tmpdir (pjoin (pjoin p.cfgbase p.id) (C.md bytes)) with
                | none => rw [hr] at h; simp at h
                | some fsr =>
                  rw [hr] at h
                  dsimp only [] at h
                  simp only [Prod.mk.injEq, Except.ok.injEq] at h
                  obtain ⟨hb, hpp, hff⟩ := h
                  subst hb; subst hff
                  rw [← hpp]
                  dsimp only []
                  rw [mapFind?_insert_self]
    | ec =>
      cases hn : normalize_and_hexhash C.md pem with
      | none => rw [hn] at h; simp at h
      | some pr0 =>
        obtain ⟨pem2, hex⟩ := pr0
        rw [hn] at h
        dsimp only [] at h
        cases hm : mapFind? p.keys hex with
        | some b =>
          rw [hm] at h
          dsimp only [] at h
          simp only [Prod.mk.injEq, Except.ok.injEq] at h
          obtain ⟨hb, hpp, hff⟩ := h
          subst hb; subst hpp; subst hff
          dsimp only []
          rw [hm]
        | none =>
          rw [hm] at h
          dsimp only [] at h
          cases hmk : mkdir_helper fs (pjoin p.cfgbase p.id) tmp with
          | none => rw [hmk] at h; simp at h
          | some pr =>
            obtain ⟨tmpdir, fs1⟩ := pr
            rw [hmk] at h
            dsimp only [] at h
            cases hw : fs1.writeNew (pjoin tmpdir (("dh.pub.pem").data)) pem2 with
            | none => rw [hw] at h; simp at h
            | some fsb =>
              rw [hw] at h
              dsimp only [] at h
              by_cases hst : fsb.stat (pjoin (pjoin p.cfgbase p.id) hex) = true
              · rw [if_pos hst] at h; simp at h
              · rw [if_neg hst] at h
                cases hr : fsb.rename tmpdir (pjoin (pjoin p.cfgbase p.id) hex) with
                | none => rw [hr] at h; simp at h
                | some fsr =>
                  rw [hr] at h
                  dsimp only [] at h
                  simp only [Prod.mk.injEq, Except.ok.injEq] at h
                  obtain ⟨hb, hpp, hff⟩ := h
                  subst hb; subst hff
                  rw [← hpp]
                  dsimp only []
                  rw [mapFind?_insert_self]

set_option maxRecDepth 40000 in
/-- C6 witness: the theorem applied to the concrete fixture; the first call
result is established by computation. -/
theorem C6_witness :
    persona.add_dh_pubkey cryptoC6 persC6 fsC6 pemD (("t1").data) =
      (Except.ok boxC6, persC6post, fsC6post) ∧
    persona.add_dh_pubkey cryptoC6 persC6post fsC6post pemD (("t2").data) =
      (Except.ok boxC6, persC6post, fsC6post) := by
  have h1 : persona.add_dh_pubkey cryptoC6 persC6 fsC6 pemD (("t1").data) =
      (Except.ok boxC6, persC6post, fsC6post) := by decide
  exact ⟨h1, C6_add_kex_pubkey_idempotent cryptoC6 persC6 fsC6 pemD (("t1").data)
    (("t2").data) boxC6 persC6post fsC6post h1⟩

/-- C1 (amended): `keystore::load(hex)` fails `InvalidId` for a non-hex id;
for a hex id it always returns success and inserts the (possibly
failed-to-load) persona into the map — the C++ discards the return value
of `persona::load`, so load errors are not propagated. -/
theorem C1_keystore_load (C : Crypto) (ks : keystore) (fs : FS) (hex : Chars) :
    (is_hex_hash hex = false →
      keystore.load C ks fs hex = (Except.error Err.invalidId, ks)) ∧
    (is_hex_hash hex = true →
      keystore.load C ks fs hex =
        (Except.ok (),
         { ks with
           personas := mapInsert hex
             (persona.load C (persona.fresh ks.cfgbase hex []) fs []).2 ks.personas })) := by
  constructor
  · intro hh
    simp [keystore.load, hh]
  · intro hh
    simp [keystore.load, hh]

/-- C1 counterexample: on an empty store the underlying `persona::load`
fails (`NotFound`: neither key file exists), yet `keystore::load` reports
success for the same id on the same store. -/
theorem C1_counterexample :
    (persona.load cryptoC1 (persona.fresh ("/ks").data idA []) fsEmpty []).1 =
      Except.error Err.notFound ∧
    (keystore.load cryptoC1 ksC1 fsEmpty idA).1 = Except.ok () := by
  decide

/-- C1 witness: the amended theorem applied at concrete inputs. -/
theorem C1_witness :
    keystore.load cryptoC1 ksC1 fsEmpty (("zz").data) =
      (Except.error Err.invalidId, ksC1) ∧
    keystore.load cryptoC1 ksC1 fsEmpty idA =
      (Except.ok (),
       { ksC1 with
         personas := mapInsert idA
           (persona.load cryptoC1 (persona.fresh ksC1.cfgbase idA []) fsEmpty []).2
           ksC1.personas }) :=
  ⟨(C1_keystore_load cryptoC1 ksC1 fsEmpty (("zz").data)).1 (by decide),
   (C1_keystore_load cryptoC1 ksC1 fsEmpty idA).2 (by decide)⟩

/-- C8 witness: the theorem applied to a concrete persona and filesystem. -/
theorem C8_witness :
    (persona.del_dh_priv persEC fsC8 hexC).1 = Except.ok () ∧
    (persona.del_dh_priv persEC fsC8 hexC).2.2.hasFile (dhPrivPath persEC hexC) = false ∧
    (persona.del_dh_priv persEC fsC8 hexC).2.2.hasFile (usedPath persEC hexC) = false ∧
    (persona.del_dh_priv persEC fsC8 hexC).2.2.hasFile (peerPath persEC hexC) = false ∧
    mapFind? (persona.del_dh_priv persEC fsC8 hexC).2.1.keys hexC =
      some { boxW with priv_pem := [], priv := none } := by
  obtain ⟨h1, h2, h3, h4, h5, _, _⟩ :=
    (C8_delete_kex_private_shreds persEC fsC8 hexC (by decide) (by decide) (by decide)).1
      (("SECRETPEM").data) (by decide)
  exact ⟨h1, h2, h3, h4, h5 boxW (by decide)⟩

theorem contains_iff_mem {l : List Chars} {a : Chars} : l.contains a = true ↔ a ∈ l := by
  simp [List.contains_eq_any_beq]

theorem nodup_keys_eq {α : Type} {m : List (Chars × α)} (hnd : (m.map Prod.fst).Nodup)
    {k : Chars} {a b : α} (ha : (k, a) ∈ m) (hb : (k, b) ∈ m) : a = b := by
  induction m with
  | nil => cases ha
  | cons e t ih =>
    rw [List.map_cons, List.nodup_cons] at hnd
    rcases List.mem_cons.mp ha with ha1 | ha1 <;> rcases List.mem_cons.mp hb with hb1 | hb1
    · exact congrArg Prod.snd (ha1.trans hb1.symm)
    · exfalso
      apply hnd.1
      rw [← ha1]
      exact show k ∈ List.map Prod.fst t from List.mem_map_of_mem Prod.fst hb1
    · exfalso
      apply hnd.1
      rw [← hb1]
      exact show k ∈ List.map Prod.fst t from List.mem_map_of_mem Prod.fst ha1
    · exact ih hnd.2 ha1 hb1

theorem take16_is_hex_hash {h : Chars} (hhex : is_hex_hash h = true)
    (hlen : h.length = 64) : is_hex_hash (h.take 16) = true := by
  rw [is_hex_hash] at hhex ⊢
  simp only [Bool.and_eq_true, decide_eq_true_eq, List.all_eq_true] at hhex ⊢
  refine ⟨⟨?_, ?_⟩, ?_⟩
  · rw [List.length_take]; omega
  · rw [List.length_take]; omega
  · intro c hc
    exact hhex.2 c (List.take_subset _ _ hc)

/-- C3 (amended): `find_persona` fails `InvalidId` on a non-hex argument; a
full-length argument is an exact map lookup; and the 16-character prefix of
a persona id finds that persona when no other persona shares the prefix.
(When several personas share the prefix the scan returns the first match in
map iteration order, which may be a different persona: see the
counterexample refuting the only-if direction.) -/
theorem C3_find_persona_short_form (ks : keystore) (hx : Chars) :
    (is_hex_hash hx = false →
      keystore.find_persona ks hx = Except.error Err.invalidId) ∧
    (∀ p, is_hex_hash hx = true → hx.length ≠ 16 →
      (mapFind? ks.personas hx = some p →
        keystore.find_persona ks hx = Except.ok p) ∧
      (mapFind? ks.personas hx = none →
        keystore.find_persona ks hx = Except.error Err.notFound)) ∧
    (∀ h p, (h, p) ∈ ks.personas → (ks.personas.map Prod.fst).Nodup →
      is_hex_hash h = true → h.length = 64 → hx = h.take 16 →
      (∀ e ∈ ks.personas, e.1 ≠ h → (h.take 16).isPrefixOf e.1 = false) →
      keystore.find_persona ks hx = Except.ok p) := by
  refine ⟨?_, ?_, ?_⟩
  · intro hh
    simp [keystore.find_persona, hh]
  · intro p hh hlen
    constructor
    · intro hfind
      simp [keystore.find_persona, hh, hlen, hfind]
    · intro hfind
      simp [keystore.find_persona, hh, hlen, hfind]
  · intro h p hmem hnd hhex hlen64 hxeq huniq
    subst hxeq
    have htlen : (h.take 16).length = 16 := by
      rw [List.length_take]; omega
    have hpred : (h.take 16).isPrefixOf h = true := by
      apply isPrefixOf_iff_take.mpr
      rw [htlen]
    have hsome : (ks.personas.find? (fun kv => (h.take 16).isPrefixOf kv.1)).isSome := by
      exact List.find?_isSome.mpr ⟨(h, p), hmem, hpred⟩
    obtain ⟨kv, hkv⟩ := Option.isSome_iff_exists.mp hsome
    have hkv_pred := List.find?_some hkv
    have hkv_mem := List.mem_of_find?_eq_some hkv
    have hkey : kv.1 = h := by
      by_contra hne
      rw [huniq kv hkv_mem hne] at hkv_pred
      cases hkv_pred
    have hval : kv.2 = p := by
      apply nodup_keys_eq hnd _ hmem
      rw [← hkey]
      exact hkv_mem
    rw [keystore.find_persona, if_neg (by simp [take16_is_hex_hash hhex hlen64]),
      if_pos htlen, hkv]
    dsimp only []
    rw [hval]

/-- C3 counterexample: two personas share the same 16-character prefix; the
scan still returns the first of them (in map iteration order) for that
prefix, so "returns that persona only if no other shares the prefix" fails. -/
theorem C3_counterexample :
    keystore.find_persona ksC3 (idA.take 16) = Except.ok persA ∧
    (idA.take 16).isPrefixOf idB = true ∧ idB ≠ idA := by
  decide

/-- C3 witness: the amended theorem applied at concrete inputs. -/
theorem C3_witness :
    keystore.find_persona ksC3 (("zz").data) = Except.error Err.invalidId ∧
    keystore.find_persona ksC3 idA = Except.ok persA ∧
    keystore.find_persona ksC3 hexC = Except.error Err.notFound ∧
    keystore.find_persona ksSingle (idA.take 16) = Except.ok persA := by
  refine ⟨(C3_find_persona_short_form ksC3 (("zz").data)).1 (by decide),
    ((C3_find_persona_short_form ksC3 idA).2.1 persA (by decide) (by decide)).1 (by decide),
    ((C3_find_persona_short_form ksC3 hexC).2.1 persA (by decide) (by decide)).2 (by decide),
    (C3_find_persona_short_form ksSingle (idA.take 16)).2.2 idA persA (by decide)
      (by decide) (by decide) (by decide) rfl (by decide)⟩

theorem mapFind?_mem {α : Type} {m : List (Chars × α)} {q : Chars} {v : α}
    (h : mapFind? m q = some v) : (q, v) ∈ m := by
  induction m with
  | nil => cases h
  | cons e t ih =>
    obtain ⟨k, w⟩ := e
    rw [mapFind?] at h
    by_cases hq : q = k
    · rw [if_pos hq] at h
      injection h with h
      subst hq
      subst h
      exact List.mem_cons_self _ _
    · rw [if_neg hq] at h
      exact List.mem_cons_of_mem _ (ih h)

theorem isUnder_ne {d q : Chars} (h : isUnder d q = true) : q ≠ d := by
  intro heq
  subst heq
  rw [isUnder, isPrefixOf_iff_take] at h
  have hlen := congrArg List.length h
  rw [List.length_take, List.length_append] at hlen
  simp at hlen

theorem isUnder_self (d : Chars) : isUnder d d = false := by
  cases h : isUnder d d with
  | false => rfl
  | true => exact absurd rfl (isUnder_ne h)

theorem isUnder_pjoin (a b : Chars) : isUnder a (pjoin a b) = true := by
  rw [isUnder, isPrefixOf_iff_take]
  have hsplit : pjoin a b = (a ++ ['/']) ++ b := by
    rw [pjoin, List.append_assoc]
    rfl
  rw [hsplit]
  exact List.take_left _ _

theorem mem_listRemove {l : List Chars} {d e : Chars} (h : e ∈ listRemove d l) :
    e ∈ l ∧ e ≠ d := by
  induction l with
  | nil => cases h
  | cons q t ih =>
    rw [listRemove] at h
    by_cases hq : q = d
    · rw [if_pos hq] at h
      obtain ⟨h1, h2⟩ := ih h
      exact ⟨List.mem_cons_of_mem _ h1, h2⟩
    · rw [if_neg hq] at h
      rcases List.mem_cons.mp h with hh | hh
      · subst hh
        exact ⟨List.mem_cons_self _ _, hq⟩
      · obtain ⟨h1, h2⟩ := ih hh
        exact ⟨List.mem_cons_of_mem _ h1, h2⟩

theorem contains_listRemove_self (d : Chars) (l : List Chars) :
    (listRemove d l).contains d = false := by
  cases hc : (listRemove d l).contains d with
  | false => rfl
  | true => exact absurd rfl (mem_listRemove (contains_iff_mem.mp hc)).2

theorem stat_under_fresh {fs : FS} {d q : Chars}
    (hf : fs.files.any (fun e => isUnder d e.1) = false)
    (hd : fs.dirs.any (fun q2 => isUnder d q2) = false)
    (hq : isUnder d q = true) :
    FS.stat { dirs := d :: fs.dirs, files := fs.files } q = false := by
  have h1 : mapFind? fs.files q = none := by
    cases hx : mapFind? fs.files q with
    | none => rfl
    | some c =>
      have hcontra : fs.files.any (fun e => isUnder d e.1) = true :=
        List.any_eq_true.mpr ⟨(q, c), mapFind?_mem hx, by exact hq⟩
      rw [hf] at hcontra
      cases hcontra
  have h2 : (d :: fs.dirs).contains q = false := by
    cases hx : (d :: fs.dirs).contains q with
    | false => rfl
    | true =>
      rcases List.mem_cons.mp (contains_iff_mem.mp hx) with hh | hh
      · exact absurd hh (isUnder_ne hq)
      · have hcontra := List.any_eq_true.mpr ⟨q, hh, hq⟩
        rw [hd] at hcontra
        cases hcontra
  rw [FS.stat, FS.hasFile, FS.readFile, FS.hasDir]
  rw [show ({ dirs := d :: fs.dirs, files := fs.files } : FS).files = fs.files from rfl,
    h1]
  rw [show ({ dirs := d :: fs.dirs, files := fs.files } : FS).dirs = d :: fs.dirs from rfl,
    h2]
  rfl

theorem stat_mono_insert {fs : FS} {q d k v : Chars} (h : fs.stat q = true) :
    FS.stat { dirs := d :: fs.dirs, files := mapInsert k v fs.files } q = true := by
  rw [FS.stat, Bool.or_eq_true, FS.hasFile, FS.hasDir, FS.readFile] at h ⊢
  rcases h with h1 | h1
  · left
    obtain ⟨c, hc⟩ := Option.isSome_iff_exists.mp h1
    by_cases hk : q = k
    · subst hk
      rw [show ({ dirs := d :: fs.dirs, files := mapInsert q v fs.files } : FS).files =
        mapInsert q v fs.files from rfl, mapFind?_insert_self]
      rfl
    · rw [show ({ dirs := d :: fs.dirs, files := mapInsert k v fs.files } : FS).files =
        mapInsert k v fs.files from rfl, mapFind?_insert_ne _ _ hk, hc]
      rfl
  · right
    rw [show ({ dirs := d :: fs.dirs, files := mapInsert k v fs.files } : FS).dirs =
      d :: fs.dirs from rfl]
    exact contains_iff_mem.mpr (List.mem_cons_of_mem _ (contains_iff_mem.mp h1))

theorem cleanup_removes {fs : FS} {tmpdir : Chars} {files2 : List (Chars × Chars)}
    (hf : fs.files.any (fun e => isUnder tmpdir e.1) = false)
    (hd : fs.dirs.any (fun q => isUnder tmpdir q) = false)
    (hmem : ∀ e ∈ files2, isUnder tmpdir e.1 = true → e ∈ fs.files) :
    (FS.rmdir { dirs := tmpdir :: fs.dirs, files := files2 } tmpdir).hasDir tmpdir = false ∧
    (FS.rmdir { dirs := tmpdir :: fs.dirs, files := files2 } tmpdir).hasChild
      tmpdir = false := by
  have hfiles2 : files2.any (fun e => isUnder tmpdir e.1) = false := by
    cases hx : files2.any (fun e => isUnder tmpdir e.1) with
    | false => rfl
    | true =>
      obtain ⟨e, hmem2, hup⟩ := List.any_eq_true.mp hx
      have hcontra : fs.files.any (fun e2 => isUnder tmpdir e2.1) = true :=
        List.any_eq_true.mpr ⟨e, hmem e hmem2 hup, by exact hup⟩
      rw [hf] at hcontra
      cases hcontra
  have hdirs2 : (tmpdir :: fs.dirs).any (fun q => isUnder tmpdir q) = false := by
    rw [List.any_cons, isUnder_self, hd]
    rfl
  have hchild : FS.hasChild { dirs := tmpdir :: fs.dirs, files := files2 } tmpdir = false := by
    rw [FS.hasChild]
    rw [show ({ dirs := tmpdir :: fs.dirs, files := files2 } : FS).files = files2 from rfl,
      show ({ dirs := tmpdir :: fs.dirs, files := files2 } : FS).dirs =
        tmpdir :: fs.dirs from rfl, hfiles2, hdirs2]
    rfl
  rw [FS.rmdir, if_neg (by rw [hchild]; exact Bool.false_ne_true)]
  constructor
  · rw [FS.hasDir]
    exact contains_listRemove_self _ _
  · have hrm : (listRemove tmpdir (tmpdir :: fs.dirs)).any
        (fun q => isUnder tmpdir q) = false := by
      cases hx : (listRemove tmpdir (tmpdir :: fs.dirs)).any (fun q => isUnder tmpdir q) with
      | false => rfl
      | true =>
        obtain ⟨q, hmem2, hup⟩ := List.any_eq_true.mp hx
        obtain ⟨hq1, hq2⟩ := mem_listRemove hmem2
        rcases List.mem_cons.mp hq1 with hh | hh
        · exact absurd hh hq2
        · have hcontra := List.any_eq_true.mpr ⟨q, hh, hup⟩
          rw [hd] at hcontra
          cases hcontra
    rw [FS.hasChild]
    dsimp only []
    rw [hfiles2, hrm]
    rfl

theorem add_dh_pubkey_conflict_cleanup (C : Crypto) (p : persona) (fs : FS)
    (pem tmp bytes : Chars)
    (hparse : C.parsePub pem = some KeyType.dh)
    (hbytes : C.dhPubBytes pem = some bytes)
    (hmiss : mapFind? p.keys (C.md bytes) = none)
    (hfresh : fs.stat (pjoin (pjoin p.cfgbase p.id) tmp) = false)
    (hf : fs.files.any (fun e => isUnder (pjoin (pjoin p.cfgbase p.id) tmp) e.1) = false)
    (hd : fs.dirs.any (fun q => isUnder (pjoin (pjoin p.cfgbase p.id) tmp) q) = false)
    (hconf : fs.stat (pjoin (pjoin p.cfgbase p.id) (C.md bytes)) = true) :
    (persona.add_dh_pubkey C p fs pem tmp).1 = Except.error Err.conflict ∧
    (persona.add_dh_pubkey C p fs pem tmp).2.1 = p ∧
    (persona.add_dh_pubkey C p fs pem tmp).2.2.hasDir
      (pjoin (pjoin p.cfgbase p.id) tmp) = false ∧
    (persona.add_dh_pubkey C p fs pem tmp).2.2.hasChild
      (pjoin (pjoin p.cfgbase p.id) tmp) = false := by
  have hunder : isUnder (pjoin (pjoin p.cfgbase p.id) tmp)
      (pjoin (pjoin (pjoin p.cfgbase p.id) tmp) (("dh.pub.pem").data)) = true :=
    isUnder_pjoin _ _
  have hw : FS.stat { dirs := pjoin (pjoin p.cfgbase p.id) tmp :: fs.dirs, files := fs.files }
      (pjoin (pjoin (pjoin p.cfgbase p.id) tmp) (("dh.pub.pem").data)) = false :=
    stat_under_fresh hf hd hunder
  have hst2 : FS.stat
      { dirs := pjoin (pjoin p.cfgbase p.id) tmp :: fs.dirs,
        files := mapInsert (pjoin (pjoin (pjoin p.cfgbase p.id) tmp) (("dh.pub.pem").data))
            pem fs.files }
      (pjoin (pjoin p.cfgbase p.id) (C.md bytes)) = true :=
    stat_mono_insert hconf
  have hmem : ∀ e ∈ mapErase (pjoin (pjoin (pjoin p.cfgbase p.id) tmp) (("dh.pub.pem").data))
      (mapInsert (pjoin (pjoin (pjoin p.cfgbase p.id) tmp) (("dh.pub.pem").data)) pem
        fs.files),
      isUnder (pjoin (pjoin p.cfgbase p.id) tmp) e.1 = true → e ∈ fs.files := by
    intro e he _
    obtain ⟨he1, hne⟩ := mem_mapErase he
    rcases mem_mapInsert he1 with hh | hh
    · exact absurd (congrArg Prod.fst hh) hne
    · exact hh
  have hrw : persona.add_dh_pubkey C p fs pem tmp =
      (Except.error Err.conflict, p,
       FS.rmdir
         { dirs := pjoin (pjoin p.cfgbase p.id) tmp :: fs.dirs,
           files := mapErase
               (pjoin (pjoin (pjoin p.cfgbase p.id) tmp) (("dh.pub.pem").data))
               (mapInsert (pjoin (pjoin (pjoin p.cfgbase p.id) tmp) (("dh.pub.pem").data))
                 pem fs.files) }
         (pjoin (pjoin p.cfgbase p.id) tmp)) := by
    rw [persona.add_dh_pubkey, hparse]
    dsimp only []
    rw [hbytes]
    dsimp only []
    rw [hmiss, mkdir_helper, FS.mkdir, if_neg (by rw [hfresh]; exact Bool.false_ne_true)]
    dsimp only []
    rw [FS.writeNew, if_neg (by rw [hw]; exact Bool.false_ne_true)]
    dsimp only [FS.setFile]
    rw [if_pos hst2]
    dsimp only [FS.unlink]
  obtain ⟨hc1, hc2⟩ := cleanup_removes hf hd hmem
  exact ⟨by rw [hrw], by rw [hrw], by rw [hrw]; exact hc1, by rw [hrw]; exact hc2⟩

theorem stat_true_cons_dir {fs : FS} {q d : Chars} (h : fs.stat q = true) :
    FS.stat { dirs := d :: fs.dirs, files := fs.files } q = true := by
  rw [FS.stat, Bool.or_eq_true, FS.hasFile, FS.hasDir, FS.readFile] at h ⊢
  rcases h with h1 | h1
  · exact Or.inl h1
  · exact Or.inr (contains_iff_mem.mpr (List.mem_cons_of_mem _ (contains_iff_mem.mp h1)))

theorem stat_true_insert {fs : FS} {q k v : Chars} (h : fs.stat q = true) :
    FS.stat { dirs := fs.dirs, files := mapInsert k v fs.files } q = true := by
  rw [FS.stat, Bool.or_eq_true, FS.hasFile, FS.hasDir, FS.readFile] at h ⊢
  rcases h with h1 | h1
  · left
    obtain ⟨c, hc⟩ := Option.isSome_iff_exists.mp h1
    by_cases hk : q = k
    · subst hk
      rw [show ({ dirs := fs.dirs, files := mapInsert q v fs.files } : FS).files =
        mapInsert q v fs.files from rfl, mapFind?_insert_self]
      rfl
    · rw [show ({ dirs := fs.dirs, files := mapInsert k v fs.files } : FS).files =
        mapInsert k v fs.files from rfl, mapFind?_insert_ne _ _ hk, hc]
      rfl
  · exact Or.inr h1

theorem stat_false_insert {fs : FS} {q k v : Chars} (h : fs.stat q = false) (hne : q ≠ k) :
    FS.stat { dirs := fs.dirs, files := mapInsert k v fs.files } q = false := by
  rw [FS.stat, FS.hasFile, FS.hasDir, FS.readFile] at h ⊢
  rw [show ({ dirs := fs.dirs, files := mapInsert k v fs.files } : FS).files =
    mapInsert k v fs.files from rfl, mapFind?_insert_ne _ _ hne]
  exact h

theorem gen_kex_key_conflict_cleanup (C : Crypto) (p : persona) (fs : FS)
    (tmp pub priv bytes : Chars) (dhb : DHbox) (t1 t2 : KeyType)
    (hptype : p.ptype = PType.rsa)
    (hdh : p.dh_params = some dhb)
    (hgen : C.genDH = some (pub, priv, bytes))
    (hppub : C.parsePub pub = some t1)
    (hppriv : C.parsePriv priv = some t2)
    (hmiss : mapFind? p.keys (C.md bytes) = none)
    (hfresh : fs.stat (pjoin (pjoin p.cfgbase p.id) tmp) = false)
    (hf : fs.files.any (fun e => isUnder (pjoin (pjoin p.cfgbase p.id) tmp) e.1) = false)
    (hd : fs.dirs.any (fun q => isUnder (pjoin (pjoin p.cfgbase p.id) tmp) q) = false)
    (hconf : fs.stat (pjoin (pjoin p.cfgbase p.id) (C.md bytes)) = true) :
    (persona.gen_kex_key C p fs [] tmp).1 = Except.error Err.conflict ∧
    (persona.gen_kex_key C p fs [] tmp).2.1 = p ∧
    (persona.gen_kex_key C p fs [] tmp).2.2.hasDir
      (pjoin (pjoin p.cfgbase p.id) tmp) = false ∧
    (persona.gen_kex_key C p fs [] tmp).2.2.hasChild
      (pjoin (pjoin p.cfgbase p.id) tmp) = false := by
  have hu1 : isUnder (pjoin (pjoin p.cfgbase p.id) tmp)
      (pjoin (pjoin (pjoin p.cfgbase p.id) tmp) (("dh.pub.pem").data)) = true :=
    isUnder_pjoin _ _
  have hu2 : isUnder (pjoin (pjoin p.cfgbase p.id) tmp)
      (pjoin (pjoin (pjoin p.cfgbase p.id) tmp) (("dh.priv.pem").data)) = true :=
    isUnder_pjoin _ _
  have hne21 : pjoin (pjoin (pjoin p.cfgbase p.id) tmp) (("dh.priv.pem").data) ≠
      pjoin (pjoin (pjoin p.cfgbase p.id) tmp) (("dh.pub.pem").data) := by
    intro heq
    exact absurd (pjoin_right_inj heq) (by decide)
  have hw1 : FS.stat { dirs := pjoin (pjoin p.cfgbase p.id) tmp :: fs.dirs, files := fs.files }
      (pjoin (pjoin (pjoin p.cfgbase p.id) tmp) (("dh.pub.pem").data)) = false :=
    stat_under_fresh hf hd hu1
  have hw2base : FS.stat
      { dirs := pjoin (pjoin p.cfgbase p.id) tmp :: fs.dirs, files := fs.files }
      (pjoin (pjoin (pjoin p.cfgbase p.id) tmp) (("dh.priv.pem").data)) = false :=
    stat_under_fresh hf hd hu2
  have hw2 : FS.stat
      { dirs := pjoin (pjoin p.cfgbase p.id) tmp :: fs.dirs,
        files := mapInsert (pjoin (pjoin (pjoin p.cfgbase p.id) tmp) (("dh.pub.pem").data))
            pub fs.files }
      (pjoin (pjoin (pjoin p.cfgbase p.id) tmp) (("dh.priv.pem").data)) = false :=
    stat_false_insert hw2base hne21
  have hst3 : FS.stat
      { dirs := pjoin (pjoin p.cfgbase p.id) tmp :: fs.dirs,
        files := mapInsert (pjoin (pjoin (pjoin p.cfgbase p.id) tmp) (("dh.priv.pem").data))
            priv
            (mapInsert (pjoin (pjoin (pjoin p.cfgbase p.id) tmp) (("dh.pub.pem").data))
              pub fs.files) }
      (pjoin (pjoin p.cfgbase p.id) (C.md bytes)) = true :=
    stat_true_insert (stat_true_insert (stat_true_cons_dir hconf))
  have hmem : ∀ e ∈ mapErase (pjoin (pjoin (pjoin p.cfgbase p.id) tmp) (("peer").data))
      (mapErase (pjoin (pjoin (pjoin p.cfgbase p.id) tmp) (("dh.priv.pem").data))
        (mapErase (pjoin (pjoin (pjoin p.cfgbase p.id) tmp) (("dh.pub.pem").data))
          (mapInsert (pjoin (pjoin (pjoin p.cfgbase p.id) tmp) (("dh.priv.pem").data)) priv
            (mapInsert (pjoin (pjoin (pjoin p.cfgbase p.id) tmp) (("dh.pub.pem").data))
              pub fs.files)))),
      isUnder (pjoin (pjoin p.cfgbase p.id) tmp) e.1 = true → e ∈ fs.files := by
    intro e he _
    obtain ⟨he1, _⟩ := mem_mapErase he
    obtain ⟨he2, hne2⟩ := mem_mapErase he1
    obtain ⟨he3, hne3⟩ := mem_mapErase he2
    rcases mem_mapInsert he3 with hh | hh
    · exact absurd (congrArg Prod.fst hh) hne2
    · rcases mem_mapInsert hh with hh2 | hh2
      · exact absurd (congrArg Prod.fst hh2) hne3
      · exact hh2
  have hrw : persona.gen_kex_key C p fs [] tmp =
      (Except.error Err.conflict, p,
       FS.rmdir
         { dirs := pjoin (pjoin p.cfgbase p.id) tmp :: fs.dirs,
           files := mapErase (pjoin (pjoin (pjoin p.cfgbase p.id) tmp) (("peer").data))
               (mapErase (pjoin (pjoin (pjoin p.cfgbase p.id) tmp) (("dh.priv.pem").data))
                 (mapErase (pjoin (pjoin (pjoin p.cfgbase p.id) tmp) (("dh.pub.pem").data))
                   (mapInsert (pjoin (pjoin (pjoin p.cfgbase p.id) tmp)
                       (("dh.priv.pem").data)) priv
                     (mapInsert (pjoin (pjoin (pjoin p.cfgbase p.id) tmp)
                         (("dh.pub.pem").data))
                       pub fs.files)))) }
         (pjoin (pjoin p.cfgbase p.id) tmp)) := by
    rw [persona.gen_kex_key, hptype, if_neg (by decide : ¬ PType.rsa = PType.ec), hdh]
    dsimp only []
    rw [hgen]
    dsimp only []
    rw [hmiss, hppub]
    dsimp only []
    rw [hppriv]
    dsimp only []
    rw [mkdir_helper, FS.mkdir, if_neg (by rw [hfresh]; exact Bool.false_ne_true)]
    dsimp only []
    rw [FS.writeNew, if_neg (by rw [hw1]; exact Bool.false_ne_true)]
    dsimp only [FS.setFile]
    rw [FS.writeNew, if_neg (by rw [hw2]; exact Bool.false_ne_true)]
    dsimp only [FS.setFile]
    rw [if_neg (by simp : ¬ (0 < List.length ([] : Chars) ∧ is_hex_hash [] = true))]
    rw [if_pos hst3]
    dsimp only [FS.unlink]
  obtain ⟨hc1, hc2⟩ := cleanup_removes hf hd hmem
  exact ⟨by rw [hrw], by rw [hrw], by rw [hrw]; exact hc1, by rw [hrw]; exact hc2⟩

theorem add_persona_conflict_cleanup (C : Crypto) (ks : keystore) (fs : FS)
    (c_pub pub_pem hex dhp tmp : Chars)
    (hnorm : normalize_and_hexhash C.md c_pub = some (pub_pem, hex))
    (hppub : C.parsePub pub_pem = some KeyType.ec)
    (hfresh : fs.stat (pjoin ks.cfgbase tmp) = false)
    (hf : fs.files.any (fun e => isUnder (pjoin ks.cfgbase tmp) e.1) = false)
    (hd : fs.dirs.any (fun q => isUnder (pjoin ks.cfgbase tmp) q) = false)
    (hconf : fs.stat (pjoin ks.cfgbase hex) = true) :
    (keystore.add_persona C ks fs [] c_pub [] dhp tmp).1 = Except.error Err.conflict ∧
    (keystore.add_persona C ks fs [] c_pub [] dhp tmp).2.1 = ks ∧
    (keystore.add_persona C ks fs [] c_pub [] dhp tmp).2.2.hasDir
      (pjoin ks.cfgbase tmp) = false ∧
    (keystore.add_persona C ks fs [] c_pub [] dhp tmp).2.2.hasChild
      (pjoin ks.cfgbase tmp) = false := by
  have hu1 : isUnder (pjoin ks.cfgbase tmp)
      (pjoin (pjoin ks.cfgbase tmp) (("ec").data ++ (".pub.pem").data)) = true :=
    isUnder_pjoin _ _
  have hw1 : FS.stat { dirs := pjoin ks.cfgbase tmp :: fs.dirs, files := fs.files }
      (pjoin (pjoin ks.cfgbase tmp) (("ec").data ++ (".pub.pem").data)) = false :=
    stat_under_fresh hf hd hu1
  have hst3 : FS.stat
      { dirs := pjoin ks.cfgbase tmp :: fs.dirs,
        files := mapInsert (pjoin (pjoin ks.cfgbase tmp) (("ec").data ++ (".pub.pem").data))
            pub_pem fs.files }
      (pjoin ks.cfgbase hex) = true :=
    stat_true_insert (stat_true_cons_dir hconf)
  have hmem : ∀ e ∈ mapErase (pjoin (pjoin ks.cfgbase tmp) (("name").data))
      (mapErase (pjoin (pjoin ks.cfgbase tmp) (("ec").data ++ (".pub.pem").data))
        (mapErase (pjoin (pjoin ks.cfgbase tmp) (("ec").data ++ (".priv.pem").data))
          (mapInsert (pjoin (pjoin ks.cfgbase tmp) (("ec").data ++ (".pub.pem").data))
            pub_pem fs.files))),
      isUnder (pjoin ks.cfgbase tmp) e.1 = true → e ∈ fs.files := by
    intro e he _
    obtain ⟨he1, _⟩ := mem_mapErase he
    obtain ⟨he2, hne2⟩ := mem_mapErase he1
    obtain ⟨he3, _⟩ := mem_mapErase he2
    rcases mem_mapInsert he3 with hh | hh
    · exact absurd (congrArg Prod.fst hh) hne2
    · exact hh
  have hrw : keystore.add_persona C ks fs [] c_pub [] dhp tmp =
      (Except.error Err.conflict, ks,
       FS.rmdir
         { dirs := pjoin ks.cfgbase tmp :: fs.dirs,
           files := mapErase (pjoin (pjoin ks.cfgbase tmp) (("name").data))
               (mapErase (pjoin (pjoin ks.cfgbase tmp) (("ec").data ++ (".pub.pem").data))
                 (mapErase (pjoin (pjoin ks.cfgbase tmp) (("ec").data ++ (".priv.pem").data))
                   (mapInsert (pjoin (pjoin ks.cfgbase tmp)
                       (("ec").data ++ (".pub.pem").data))
                     pub_pem fs.files))) }
         (pjoin ks.cfgbase tmp)) := by
    rw [keystore.add_persona, hnorm]
    dsimp only []
    rw [mkdir_helper, FS.mkdir, if_neg (by rw [hfresh]; exact Bool.false_ne_true)]
    dsimp only []
    rw [if_neg (by decide : ¬ 0 < List.length ([] : Chars))]
    dsimp only []
    rw [hppub]
    dsimp only [keyTypeMarker]
    rw [FS.writeNew, if_neg (by rw [hw1]; exact Bool.false_ne_true)]
    dsimp only [FS.setFile]
    rw [if_neg (by decide : ¬ 0 < List.length ([] : Chars))]
    dsimp only []
    rw [FS.rename, if_pos (Bool.or_eq_true _ _ |>.mpr (Or.inr hst3))]
    dsimp only [FS.unlink]
  obtain ⟨hc1, hc2⟩ := cleanup_removes hf hd hmem
  exact ⟨by rw [hrw], by rw [hrw], by rw [hrw]; exact hc1, by rw [hrw]; exact hc2⟩

/-- C2 (amended): the staging cleanup is guaranteed only on the
stat/rename-conflict path.  When `add_persona`, `gen_kex_key` or
`add_dh_pubkey` reach the publish step and the target directory already
exists, they unlink the staged files, remove the staging directory and fail
`Conflict`, leaving no staging entry behind.  (On the other error paths
after the staging `mkdir` — PEM parse failure, unsupported key type,
key-type mismatch, write failure — the functions return without cleaning
up, so the staging directory is left behind: see the counterexample.) -/
theorem C2_staging_cleanup :
    (∀ (C : Crypto) (ks : keystore) (fs : FS) (c_pub pub_pem hex dhp tmp : Chars),
      normalize_and_hexhash C.md c_pub = some (pub_pem, hex) →
      C.parsePub pub_pem = some KeyType.ec →
      fs.stat (pjoin ks.cfgbase tmp) = false →
      fs.files.any (fun e => isUnder (pjoin ks.cfgbase tmp) e.1) = false →
      fs.dirs.any (fun q => isUnder (pjoin ks.cfgbase tmp) q) = false →
      fs.stat (pjoin ks.cfgbase hex) = true →
      (keystore.add_persona C ks fs [] c_pub [] dhp tmp).1 = Except.error Err.conflict ∧
      (keystore.add_persona C ks fs [] c_pub [] dhp tmp).2.1 = ks ∧
      (keystore.add_persona C ks fs [] c_pub [] dhp tmp).2.2.hasDir
        (pjoin ks.cfgbase tmp) = false ∧
      (keystore.add_persona C ks fs [] c_pub [] dhp tmp).2.2.hasChild
        (pjoin ks.cfgbase tmp) = false) ∧
    (∀ (C : Crypto) (p : persona) (fs : FS) (tmp pub priv bytes : Chars) (dhb : DHbox)
      (t1 t2 : KeyType),
      p.ptype = PType.rsa → p.dh_params = some dhb →
      C.genDH = some (pub, priv, bytes) →
      C.parsePub pub = some t1 → C.parsePriv priv = some t2 →
      mapFind? p.keys (C.md bytes) = none →
      fs.stat (pjoin (pjoin p.cfgbase p.id) tmp) = false →
      fs.files.any (fun e => isUnder (pjoin (pjoin p.cfgbase p.id) tmp) e.1) = false →
      fs.dirs.any (fun q => isUnder (pjoin (pjoin p.cfgbase p.id) tmp) q) = false →
      fs.stat (pjoin (pjoin p.cfgbase p.id) (C.md bytes)) = true →
      (persona.gen_kex_key C p fs [] tmp).1 = Except.error Err.conflict ∧
      (persona.gen_kex_key C p fs [] tmp).2.1 = p ∧
      (persona.gen_kex_key C p fs [] tmp).2.2.hasDir
        (pjoin (pjoin p.cfgbase p.id) tmp) = false ∧
      (persona.gen_kex_key C p fs [] tmp).2.2.hasChild
        (pjoin (pjoin p.cfgbase p.id) tmp) = false) ∧
    (∀ (C : Crypto) (p : persona) (fs : FS) (pem tmp bytes : Chars),
      C.parsePub pem = some KeyType.dh →
      C.dhPubBytes pem = some bytes →
      mapFind? p.keys (C.md bytes) = none →
      fs.stat (pjoin (pjoin p.cfgbase p.id) tmp) = false →
      fs.files.any (fun e => isUnder (pjoin (pjoin p.cfgbase p.id) tmp) e.1) = false →
      fs.dirs.any (fun q => isUnder (pjoin (pjoin p.cfgbase p.id) tmp) q) = false →
      fs.stat (pjoin (pjoin p.cfgbase p.id) (C.md bytes)) = true →
      (persona.add_dh_pubkey C p fs pem tmp).1 = Except.error Err.conflict ∧
      (persona.add_dh_pubkey C p fs pem tmp).2.1 = p ∧
      (persona.add_dh_pubkey C p fs pem tmp).2.2.hasDir
        (pjoin (pjoin p.cfgbase p.id) tmp) = false ∧
      (persona.add_dh_pubkey C p fs pem tmp).2.2.hasChild
        (pjoin (pjoin p.cfgbase p.id) tmp) = false) := by
  refine ⟨?_, ?_, ?_⟩
  · intro C ks fs c_pub pub_pem hex dhp tmp h1 h2 h3 h4 h5 h6
    exact add_persona_conflict_cleanup C ks fs c_pub pub_pem hex dhp tmp h1 h2 h3 h4 h5 h6
  · intro C p fs tmp pub priv bytes dhb t1 t2 h1 h2 h3 h4 h5 h6 h7 h8 h9 h10
    exact gen_kex_key_conflict_cleanup C p fs tmp pub priv bytes dhb t1 t2
      h1 h2 h3 h4 h5 h6 h7 h8 h9 h10
  · intro C p fs pem tmp bytes h1 h2 h3 h4 h5 h6 h7
    exact add_dh_pubkey_conflict_cleanup C p fs pem tmp bytes h1 h2 h3 h4 h5 h6 h7

/-- C2 counterexample: an error after the staging `mkdir` that is not the
rename conflict — here the unsupported-key-type error, hit by feeding a DH
public key to `add_persona` — returns with the staging directory (and the
staged `name` file) still present on disk. -/
theorem C2_counterexample :
    (keystore.add_persona cryptoC6 ksC1 fsEmpty (("n").data) pemClean [] []
      (("t1").data)).1 = Except.error Err.unsupported ∧
    (keystore.add_persona cryptoC6 ksC1 fsEmpty (("n").data) pemClean [] []
      (("t1").data)).2.2.hasDir (pjoin ("/ks").data (("t1").data)) = true ∧
    (keystore.add_persona cryptoC6 ksC1 fsEmpty (("n").data) pemClean [] []
      (("t1").data)).2.2.hasFile
        (pjoin (pjoin ("/ks").data (("t1").data)) (("name").data)) = true := by
  decide

/-- C2 witness: the amended theorem applied to the three operations at
concrete conflicting stores. -/
theorem C2_witness :
    (keystore.add_persona cryptoC10 ksC1 fsWA [] pemClean [] [] (("t1").data)).1 =
      Except.error Err.conflict ∧
    (keystore.add_persona cryptoC10 ksC1 fsWA [] pemClean [] [] (("t1").data)).2.2.hasDir
      (pjoin ("/ks").data (("t1").data)) = false ∧
    (persona.gen_kex_key cryptoW2 persW2 fsW2 [] (("t1").data)).1 =
      Except.error Err.conflict ∧
    (persona.gen_kex_key cryptoW2 persW2 fsW2 [] (("t1").data)).2.2.hasDir
      (pjoin (pjoin ("/ks").data persW2.id) (("t1").data)) = false ∧
    (persona.add_dh_pubkey cryptoC6 persC6 fsW6 pemD (("t1").data)).1 =
      Except.error Err.conflict ∧
    (persona.add_dh_pubkey cryptoC6 persC6 fsW6 pemD (("t1").data)).2.2.hasDir
      (pjoin (pjoin ("/ks").data persC6.id) (("t1").data)) = false := by
  obtain ⟨a1, _, a3, _⟩ := C2_staging_cleanup.1 cryptoC10 ksC1 fsWA pemClean pemCanon
    pemCanon [] (("t1").data) (by decide) (by decide) (by decide) (by decide)
    (by decide) (by decide)
  obtain ⟨b1, _, b3, _⟩ := C2_staging_cleanup.2.1 cryptoW2 persW2 fsW2 (("t1").data)
    (("GP").data) (("GS").data) (("GB").data) { pem := ("PARAMS").data } KeyType.dh
    KeyType.dh (by decide) (by decide) (by decide) (by decide) (by decide) (by decide)
    (by decide) (by decide) (by decide) (by decide)
  obtain ⟨c1, _, c3, _⟩ := C2_staging_cleanup.2.2 cryptoC6 persC6 fsW6 pemD
    (("t1").data) pemD (by decide) (by decide) (by decide) (by decide) (by decide)
    (by decide) (by decide)
  exact ⟨a1, a3, b1, b3, c1, c3⟩

end Opmsg
